import Mathlib

/-!
Verification of the adaptive staircase-sweep measurement code (`measurement.py`)
of the hrms repository, against its natural-language specification.

The embedding models the numeric control logic over exact rationals:

* `rangeFloorCeil`, `rangeDecision`, `selectRange` embed the manual
  range-selection block of `CustomizedStaircaseSweep._single_run`
  (lines 471-509): floor/ceiling candidate ranges on a decade scale via
  `log10floorPos`/`log10ceilPos`, the near-zero clamps, the 2 nA hysteresis
  substitution, and the narrow/widen decision.
* `processStep`, `runLoop`, `singleRun` embed one voltage step and a full
  single sweep, including the sticky 142 pA fault counter (lines 511-517),
  the deferred NaN invalidation of flagged indices (lines 531-535) and the
  `current > 1` overflow post-filter (line 537).  NaN markers are modelled
  as `none : Option ℚ`.
* `doSweep` embeds `CustomizedStaircaseSweep._do_sweep`: successive sweeps
  with negated start/step/stop, the instrument range carried across sweeps.
* `set_parameters_ok` embeds the validator calls of
  `StaircaseSweep.set_parameters`, `door_closed_or_not_raises` embeds the
  interlock pre-check `StaircaseSweep.door_closed_or_not`, and
  `tseqSession` embeds the control flow of `TSEQStaircaseSweep._do_sweep`
  (per-sweep outcome: normal completion, KeyboardInterrupt, other error).

Python float arithmetic is modelled by exact rational arithmetic, and
numpy `log10`/`floor`/`ceil` by the integer-valued decade logarithms
below; `np.log10(0) = -inf` (so that `2*10**-inf = 0` falls under the
`< 2e-15` clamp) is modelled by the explicit zero branch of
`rangeFloorCeil`.
-/

/-- Integer floor of the base-10 logarithm of a positive rational,
modelling `np.floor(np.log10(q))`.  For `q ≥ 1` this is `Nat.log 10 ⌊q⌋`;
for `0 < q < 1` it is `-⌈log10 (1/q)⌉ = -(Nat.clog 10 ⌈1/q⌉)`. -/
def log10floorPos (q : ℚ) : ℤ :=
  if 1 ≤ q then (Nat.log 10 ⌊q⌋.toNat : ℤ) else -(Nat.clog 10 ⌈q⁻¹⌉.toNat : ℤ)

/-- Integer ceiling of the base-10 logarithm of a positive rational,
modelling `np.ceil(np.log10(q))`. -/
def log10ceilPos (q : ℚ) : ℤ :=
  if 1 ≤ q then (Nat.clog 10 ⌈q⌉.toNat : ℤ) else -(Nat.log 10 ⌊q⁻¹⌋.toNat : ℤ)

/-- Floor and ceiling candidate measurement ranges for a reading magnitude,
embedding lines 475-482 of `measurement.py`:
`flr = 2*10**(np.floor(np.log10(absr/2)))`,
`cer = 2*10**(np.ceil(np.log10(absr/2)))`, each clamped
(`flr` to `2e-13`, `cer` to `2e-11`) when the computed value is below
`2e-15`.  A zero reading gives `-inf` from `np.log10` and hence `0` for
both computed values, so both are clamped. -/
def rangeFloorCeil (absr : ℚ) : ℚ × ℚ :=
  if absr = 0 then (2e-13, 2e-11)
  else
    let flr := 2 * (10 : ℚ) ^ log10floorPos (absr / 2)
    let cer := 2 * (10 : ℚ) ^ log10ceilPos (absr / 2)
    (if flr < 2e-15 then 2e-13 else flr, if cer < 2e-15 then 2e-11 else cer)

/-- The manual-mode range decision of `_single_run` (lines 484-509):
the 2 nA hysteresis substitution `cer = cer*10 if (cer == 2e-9 and
absr > 0.8e-9)`, then narrow to `cer` when the current range exceeds it,
else widen to `cer` when the range is at or below `flr` and the reading is
in `(0, 1)`, else widen by one decade when the reading overflows
(`absr > 1`) and the range is at most `2e-3`; otherwise no change. -/
def rangeDecision (absr mr : ℚ) : ℚ :=
  let fc := rangeFloorCeil absr
  let flr := fc.1
  let cer0 := fc.2
  let cer := if cer0 = 2e-9 ∧ 0.8e-9 < absr then cer0 * 10 else cer0
  if cer < mr then cer
  else if mr ≤ flr then
    if 0 < absr ∧ absr < 1 then cer
    else if 1 < absr then
      if mr ≤ 2e-3 then mr * 10 else mr
    else mr
  else mr

/-- The RangeSelector: in auto mode the whole block of lines 471-517 is
skipped and the range is unchanged; in manual mode the decision of
`rangeDecision` applies. -/
def selectRange (auto : Bool) (absr mr : ℚ) : ℚ :=
  if auto then mr else rangeDecision absr mr

/-- The decision rule exactly as the claim words it (for comparison with
`selectRange`): same floor/ceiling with clamps, but no hysteresis
substitution, and the decade-widening branch already at `r ≥ 1`. -/
def selectRangeClaimed (auto : Bool) (r m : ℚ) : ℚ :=
  if auto then m
  else
    let flr := (rangeFloorCeil r).1
    let cer := (rangeFloorCeil r).2
    if cer < m then cer
    else if m ≤ flr ∧ 0 < r ∧ r < 1 then cer
    else if m ≤ flr ∧ 1 ≤ r ∧ m ≤ 2e-3 then m * 10
    else m

/-- The amended decision rule: as claimed, but with the hysteresis
substitution (ceiling `2e-9` is replaced by `2e-8` when the reading
exceeds `0.8e-9`) applied before the decision, and the decade-widening
branch only for strictly overflowing readings (`r > 1`). -/
def selectRangeAmended (auto : Bool) (r m : ℚ) : ℚ :=
  if auto then m
  else
    let flr := (rangeFloorCeil r).1
    let cer1 := (rangeFloorCeil r).2
    let cer := if cer1 = 2e-9 ∧ 0.8e-9 < r then 2e-8 else cer1
    if cer < m then cer
    else if m ≤ flr ∧ 0 < r ∧ r < 1 then cer
    else if m ≤ flr ∧ 1 < r ∧ m ≤ 2e-3 then m * 10
    else m

/-- Round half to even, modelling the Python builtin `round` used in
`round(mr_now*10**10) == 2` (line 511). -/
def bankersRound (x : ℚ) : ℤ :=
  if Int.fract x < 1 / 2 then ⌊x⌋
  else if 1 / 2 < Int.fract x then ⌊x⌋ + 1
  else if 2 ∣ ⌊x⌋ then ⌊x⌋ else ⌊x⌋ + 1

/-- Lower bound of the sticky-fault band (`1.4e-10 <= absr`, line 512). -/
def bandLo : ℚ := 1.4e-10

/-- Upper bound of the sticky-fault band (`absr <= 1.44e-10`, line 512). -/
def bandHi : ℚ := 1.44e-10

/-- Number of voltage points of `np.arange(start, stop, step)` for a
nonzero step: `⌈(stop-start)/step⌉`, clamped at zero.  (`np.arange`
raises for a zero step; the model is only used with `step ≠ 0`.) -/
def numSteps (start step stop : ℚ) : ℕ :=
  (⌈(stop - start) / step⌉).toNat

/-- Mutable state of the `_single_run` loop: current measurement range
(`self._meas_range`), the sticky-fault counter `flag142pA`, the flagged
step indices `flag142pAidx`, and the accumulated `_curr`/`_time`/`_volt`
arrays. -/
structure RunState where
  mr : ℚ
  cnt : ℕ
  idx : List ℕ
  curr : List ℚ
  tim : List ℚ
  volt : List ℚ

/-- Initial loop state: instrument-reported measurement range, empty
counter, flag list and data arrays. -/
def initState (mr0 : ℚ) : RunState :=
  { mr := mr0, cnt := 0, idx := [], curr := [], tim := [], volt := [] }

/-- One iteration of the `for v in np.arange(start, stop, step)` loop of
`_single_run` at step index `k` (voltage `v = start + k*step`): read
`npts` (current, timestamp) pairs, append them to the data arrays, and in
manual mode run the range decision (lines 471-509, on `absr = |c[0]|` and
the range read before this step), then the sticky 142 pA check
(lines 511-517, on the same pre-decision range `mr_now`): count and flag
the step index `int((v-start)/step)` when the reading is in the band, and
force the range to `2e-9` once the counter has reached 5. -/
def processStep (auto : Bool) (start step : ℚ) (npts : ℕ)
    (rd : ℕ → ℕ → ℚ × ℚ) (st : RunState) (k : ℕ) : RunState :=
  let v := start + k * step
  let c := (List.range npts).map fun p => (rd k p).1
  let t := (List.range npts).map fun p => (rd k p).2
  let absr := |c.headD 0|
  let upd := fun (mr : ℚ) (cnt : ℕ) (idx : List ℕ) =>
    RunState.mk mr cnt idx (st.curr ++ c) (st.tim ++ t)
      (st.volt ++ (List.range npts).map fun _ => v)
  if auto then upd st.mr st.cnt st.idx
  else
    let mrNow := st.mr
    let mr1 := rangeDecision absr mrNow
    let isFragile := bankersRound (mrNow * 10 ^ 10) = 2
    let hit := isFragile ∧ bandLo ≤ absr ∧ absr ≤ bandHi
    let cnt1 := if hit then st.cnt + 1 else st.cnt
    let idx1 := if hit then st.idx ++ [(⌊(v - start) / step⌋).toNat] else st.idx
    let mr2 := if isFragile ∧ 5 ≤ cnt1 then 2e-9 else mr1
    upd mr2 cnt1 idx1

/-- Run `fuel` consecutive loop iterations starting at step index `k`. -/
def runLoop (auto : Bool) (start step : ℚ) (npts : ℕ)
    (rd : ℕ → ℕ → ℚ × ℚ) : ℕ → ℕ → RunState → RunState
  | _, 0, st => st
  | k, fuel + 1, st =>
      runLoop auto start step npts rd (k + 1) fuel
        (processStep auto start step npts rd st k)

/-- Deferred invalidation of flagged indices (lines 531-535): when the
sticky-fault counter reached 5, every flagged index of the array is
overwritten with a NaN marker (`none`). -/
def invalidate (flagOn : Bool) (idx : List ℕ) (l : List ℚ) : List (Option ℚ) :=
  if flagOn then idx.foldl (fun acc i => acc.set i none) (l.map some) else l.map some

/-- Overflow post-filter (line 537, `current[current > 1] = np.nan`):
a current sample strictly greater than 1 becomes a NaN marker; a NaN
stays NaN (`nan > 1` is false in numpy, so NaN entries are unchanged). -/
def overflowFilter (o : Option ℚ) : Option ℚ :=
  match o with
  | some c => if 1 < c then none else some c
  | none => none

/-- Result of one `_single_run` call: the sweep parameters it ran with,
the final measurement range, the sticky-fault counter and flagged
indices, and the current/time/voltage arrays after invalidation and the
overflow post-filter. -/
structure RunResult where
  start : ℚ
  step : ℚ
  stop : ℚ
  range : ℚ
  flagCnt : ℕ
  flagIdx : List ℕ
  current : List (Option ℚ)
  time : List (Option ℚ)
  voltage : List (Option ℚ)

/-- One full `_single_run (start, step, stop)`: iterate the ramp, then
apply the deferred invalidation (if the counter reached 5) and the
overflow post-filter to the current array.  `rd k p` is the instrument
reading (current, timestamp) for point `p` of step `k`; `mr0` is the
measurement range reported by the instrument at sweep start (line 444). -/
def singleRun (auto : Bool) (start step stop : ℚ) (npts : ℕ) (mr0 : ℚ)
    (rd : ℕ → ℕ → ℚ × ℚ) : RunResult :=
  let n := numSteps start step stop
  let st := runLoop auto start step npts rd 0 n (initState mr0)
  let flagOn := decide (5 ≤ st.cnt)
  { start := start, step := step, stop := stop, range := st.mr,
    flagCnt := st.cnt, flagIdx := st.idx,
    current := (invalidate flagOn st.idx st.curr).map overflowFilter,
    time := invalidate flagOn st.idx st.tim,
    voltage := invalidate flagOn st.idx st.volt }

/-- Initial (start, step, stop) derived from the sweep arguments in
`start_sweep` (lines 374-381): from `max` gives `(max_v, -step_v,
-max_v)`, from `-max` gives `(-max_v, step_v, max_v)`. -/
def sweepEndpoints (max_v step_v : ℚ) (fromMax : Bool) : ℚ × ℚ × ℚ :=
  if fromMax then (max_v, -step_v, -max_v) else (-max_v, step_v, max_v)

/-- The `_do_sweep` session loop (lines 387-414): run `num_sweep` single
sweeps, negating `start, step, stop` between successive sweeps, the
instrument measurement range carried over from each sweep to the next.
`rd s` is the reading stream of sweep `s`. -/
def doSweep (auto : Bool) (npts : ℕ) (rd : ℕ → ℕ → ℕ → ℚ × ℚ) :
    ℕ → ℚ → ℚ → ℚ → ℚ → List RunResult
  | 0, _, _, _, _ => []
  | num + 1, start, step, stop, mr0 =>
      let r := singleRun auto start step stop npts mr0 (rd 0)
      r :: doSweep auto npts (fun s => rd (s + 1)) num (-start) (-step) (-stop) r.range

/-- Parameter validation of `StaircaseSweep.set_parameters` (lines 68-69):
`Numbers(0, 1000).validate(max_v)` then `Numbers(0, max_v).validate(step_v)`
(qcodes `Numbers` bounds are inclusive on `validate`).  Constructing
`Numbers(0, max_v)` itself raises a TypeError unless `max_value` is
strictly bigger than `min_value`, so `max_v = 0` errors at configuration
time before any `validate` call -- the middle branch.  Returns `true`
when no configuration-time error is raised.  `num_sweep` is stored
without any check. -/
def set_parameters_ok (max_v step_v : ℚ) (num_sweep : ℤ) : Bool :=
  if 0 ≤ max_v ∧ max_v ≤ 1000 then
    if 0 < max_v then
      if 0 ≤ step_v ∧ step_v ≤ max_v then true else false
    else false
  else false

/-- The interlock pre-check `door_closed_or_not` (lines 82-87): raises
exactly when `max_v >= 36` and the interlock reads false.  Returns `true`
when the RuntimeError is raised. -/
def door_closed_or_not_raises (max_v : ℚ) (interlock : Bool) : Bool :=
  if 36 ≤ max_v then (if interlock = false then true else false) else false

/-- Outcome of the body of one TSEQ sweep iteration (lines 250-289):
normal completion, `KeyboardInterrupt` (user cancellation), or any other
exception. -/
inductive SweepOutcome where
  | ok
  | cancel
  | fail

/-- Observable trace of a `TSEQStaircaseSweep._do_sweep` session:
how many sweeps completed (their data added to the saver), whether the
log/persistence step after the loop (lines 292-293) ran, whether the
source was left energized on exit, and whether an exception propagated. -/
structure TseqTrace where
  completed : ℕ
  persisted : Bool
  sourceOn : Bool
  raised : Bool

/-- The TSEQ session loop.  Each iteration arms the test sequence
(energizing the source).  On normal completion `operate(0)` (line 289)
de-energizes it.  On `KeyboardInterrupt` the handler (lines 284-288)
aborts the sequence, calls `operate(0)` and breaks, after which the data
is still logged.  On any other exception nothing catches it: `operate(0)`
and the logging after the loop are skipped and the source stays
energized. -/
def tseqLoop (out : ℕ → SweepOutcome) : ℕ → ℕ → ℕ → Bool → TseqTrace
  | _, 0, acc, src => { completed := acc, persisted := true, sourceOn := src, raised := false }
  | i, num + 1, acc, _ =>
      match out i with
      | .ok => tseqLoop out (i + 1) num (acc + 1) false
      | .cancel => { completed := acc, persisted := true, sourceOn := false, raised := false }
      | .fail => { completed := acc, persisted := false, sourceOn := true, raised := true }

/-- A TSEQ session of `num` sweeps with per-sweep outcomes `out`. -/
def tseqSession (num : ℕ) (out : ℕ → SweepOutcome) : TseqTrace :=
  tseqLoop out 0 num 0 false

/-- The per-step data chunk appended to a sweep array over steps
`k, k+1, …, k+f-1`, with `npts` entries `g j 0, …, g j (npts-1)` for each
step `j`. -/
def stepChunk (npts : ℕ) (g : ℕ → ℕ → α) (k f : ℕ) : List α :=
  (List.range' k f).flatMap fun j => (List.range npts).map (g j)

/-- Whether a reading magnitude lies in the sticky-fault band of line 512. -/
def inBand (r : ℚ) : Prop := bandLo ≤ r ∧ r ≤ bandHi

instance (r : ℚ) : Decidable (inBand r) := by unfold inBand; infer_instance

/- ------------------------------------------------------------------ -/
/- Lemmas: decade logarithms                                           -/
/- ------------------------------------------------------------------ -/

theorem qpow_neg_nat (n : ℕ) : (10 : ℚ) ^ (-(n : ℤ)) = 1 / 10 ^ n := by
  rw [zpow_neg, zpow_natCast]
  exact inv_eq_one_div _

theorem qpow_nat (n : ℕ) : (10 : ℚ) ^ ((n : ℤ)) = 10 ^ n := zpow_natCast 10 n

theorem log10floorPos_le {q : ℚ} (hq : 0 < q) : (10 : ℚ) ^ log10floorPos q ≤ q := by
  unfold log10floorPos
  by_cases h1 : 1 ≤ q
  · rw [if_pos h1]
    have hfl : 1 ≤ ⌊q⌋ := Int.le_floor.mpr (by exact_mod_cast h1)
    have hn0 : ⌊q⌋.toNat ≠ 0 := by omega
    have h2 : (10 : ℕ) ^ Nat.log 10 ⌊q⌋.toNat ≤ ⌊q⌋.toNat := Nat.pow_log_le_self 10 hn0
    have h3 : ((⌊q⌋.toNat : ℕ) : ℚ) ≤ q := by
      have := Int.floor_le q
      have htn : ((⌊q⌋.toNat : ℤ) : ℚ) = ((⌊q⌋ : ℤ) : ℚ) := by
        rw [Int.toNat_of_nonneg (by omega)]
      push_cast at htn ⊢
      linarith
    calc (10 : ℚ) ^ ((Nat.log 10 ⌊q⌋.toNat : ℕ) : ℤ)
        = ((10 ^ Nat.log 10 ⌊q⌋.toNat : ℕ) : ℚ) := by rw [qpow_nat]; push_cast; ring
      _ ≤ ((⌊q⌋.toNat : ℕ) : ℚ) := by exact_mod_cast h2
      _ ≤ q := h3
  · rw [if_neg h1]
    push_neg at h1
    have hp : 1 < q⁻¹ := one_lt_inv_iff₀.mpr ⟨hq, h1⟩
    have hcl : 2 ≤ ⌈q⁻¹⌉ := by
      have := Int.lt_ceil.mpr (show ((1 : ℤ) : ℚ) < q⁻¹ by exact_mod_cast hp)
      omega
    have hm2 : 2 ≤ ⌈q⁻¹⌉.toNat := by omega
    have h2 : (⌈q⁻¹⌉.toNat : ℕ) ≤ 10 ^ Nat.clog 10 ⌈q⁻¹⌉.toNat :=
      Nat.le_pow_clog (by norm_num) _
    have h3 : q⁻¹ ≤ ((⌈q⁻¹⌉.toNat : ℕ) : ℚ) := by
      have := Int.le_ceil q⁻¹
      have htn : ((⌈q⁻¹⌉.toNat : ℤ) : ℚ) = ((⌈q⁻¹⌉ : ℤ) : ℚ) := by
        rw [Int.toNat_of_nonneg (by omega)]
      push_cast at htn ⊢
      linarith
    have h4 : q⁻¹ ≤ ((10 ^ Nat.clog 10 ⌈q⁻¹⌉.toNat : ℕ) : ℚ) :=
      le_trans h3 (by exact_mod_cast h2)
    rw [qpow_neg_nat]
    rw [div_le_iff₀ (by positivity)]
    rw [inv_le_iff_one_le_mul₀ hq] at h4
    push_cast at h4 ⊢
    linarith [h4]

theorem lt_log10floorPos_succ {q : ℚ} (hq : 0 < q) :
    q < (10 : ℚ) ^ (log10floorPos q + 1) := by
  unfold log10floorPos
  by_cases h1 : 1 ≤ q
  · rw [if_pos h1]
    have hfl : 1 ≤ ⌊q⌋ := Int.le_floor.mpr (by exact_mod_cast h1)
    have h2 : ⌊q⌋.toNat < 10 ^ (Nat.log 10 ⌊q⌋.toNat + 1) :=
      Nat.lt_pow_succ_log_self (by norm_num) _
    have h3 : q < ((⌊q⌋.toNat : ℕ) : ℚ) + 1 := by
      have := Int.lt_floor_add_one q
      have htn : ((⌊q⌋.toNat : ℤ) : ℚ) = ((⌊q⌋ : ℤ) : ℚ) := by
        rw [Int.toNat_of_nonneg (by omega)]
      push_cast at htn ⊢
      linarith
    have h4 : ((⌊q⌋.toNat : ℕ) : ℚ) + 1 ≤ ((10 ^ (Nat.log 10 ⌊q⌋.toNat + 1) : ℕ) : ℚ) := by
      exact_mod_cast h2
    have : ((Nat.log 10 ⌊q⌋.toNat : ℕ) : ℤ) + 1 = ((Nat.log 10 ⌊q⌋.toNat + 1 : ℕ) : ℤ) := by
      push_cast; ring
    rw [this, qpow_nat]
    push_cast at h4 ⊢
    linarith
  · rw [if_neg h1]
    push_neg at h1
    have hp : 1 < q⁻¹ := one_lt_inv_iff₀.mpr ⟨hq, h1⟩
    have hcl : 2 ≤ ⌈q⁻¹⌉ := by
      have := Int.lt_ceil.mpr (show ((1 : ℤ) : ℚ) < q⁻¹ by exact_mod_cast hp)
      omega
    have hm2 : 2 ≤ ⌈q⁻¹⌉.toNat := by omega
    have hC1 : 1 ≤ Nat.clog 10 ⌈q⁻¹⌉.toNat := Nat.clog_pos (by norm_num) hm2
    have h2 : 10 ^ (Nat.clog 10 ⌈q⁻¹⌉.toNat - 1) < ⌈q⁻¹⌉.toNat :=
      Nat.pow_pred_clog_lt_self (by norm_num) hm2
    -- 10^(C-1) ≤ ⌈p⌉ - 1 < p, hence 10^(C-1) < p
    have h3 : ((10 ^ (Nat.clog 10 ⌈q⁻¹⌉.toNat - 1) : ℕ) : ℚ) < q⁻¹ := by
      have hceil : ((⌈q⁻¹⌉.toNat : ℕ) : ℚ) < q⁻¹ + 1 := by
        have := Int.ceil_lt_add_one q⁻¹
        have htn : ((⌈q⁻¹⌉.toNat : ℤ) : ℚ) = ((⌈q⁻¹⌉ : ℤ) : ℚ) := by
          rw [Int.toNat_of_nonneg (by omega)]
        push_cast at htn ⊢
        linarith
      have h5 : (10 ^ (Nat.clog 10 ⌈q⁻¹⌉.toNat - 1) : ℕ) + 1 ≤ ⌈q⁻¹⌉.toNat := h2
      have h6 : ((10 ^ (Nat.clog 10 ⌈q⁻¹⌉.toNat - 1) : ℕ) : ℚ) + 1 ≤ ((⌈q⁻¹⌉.toNat : ℕ) : ℚ) := by
        exact_mod_cast h5
      linarith
    have hz : -((Nat.clog 10 ⌈q⁻¹⌉.toNat : ℕ) : ℤ) + 1
        = -(((Nat.clog 10 ⌈q⁻¹⌉.toNat - 1 : ℕ) : ℤ)) := by omega
    rw [hz, qpow_neg_nat]
    rw [lt_div_iff₀ (by positivity)]
    rw [show ((10:ℚ) ^ (Nat.clog 10 ⌈q⁻¹⌉.toNat - 1) : ℚ)
        = ((10 ^ (Nat.clog 10 ⌈q⁻¹⌉.toNat - 1) : ℕ) : ℚ) by push_cast; ring] at *
    calc q * ((10 ^ (Nat.clog 10 ⌈q⁻¹⌉.toNat - 1) : ℕ) : ℚ) < q * q⁻¹ := by
          exact mul_lt_mul_of_pos_left h3 hq
      _ = 1 := mul_inv_cancel₀ (ne_of_gt hq)

theorem le_log10ceilPos {q : ℚ} (hq : 0 < q) : q ≤ (10 : ℚ) ^ log10ceilPos q := by
  unfold log10ceilPos
  by_cases h1 : 1 ≤ q
  · rw [if_pos h1]
    have hcl : 1 ≤ ⌈q⌉ := by
      have := Int.le_ceil q
      have : (1 : ℚ) ≤ ((⌈q⌉ : ℤ) : ℚ) := by linarith
      exact_mod_cast this
    have h2 : (⌈q⌉.toNat : ℕ) ≤ 10 ^ Nat.clog 10 ⌈q⌉.toNat :=
      Nat.le_pow_clog (by norm_num) _
    have h3 : q ≤ ((⌈q⌉.toNat : ℕ) : ℚ) := by
      have := Int.le_ceil q
      have htn : ((⌈q⌉.toNat : ℤ) : ℚ) = ((⌈q⌉ : ℤ) : ℚ) := by
        rw [Int.toNat_of_nonneg (by omega)]
      push_cast at htn ⊢
      linarith
    rw [qpow_nat]
    have h4 : ((⌈q⌉.toNat : ℕ) : ℚ) ≤ ((10 ^ Nat.clog 10 ⌈q⌉.toNat : ℕ) : ℚ) := by
      exact_mod_cast h2
    push_cast at h4 ⊢
    linarith
  · rw [if_neg h1]
    push_neg at h1
    have hp : 1 < q⁻¹ := one_lt_inv_iff₀.mpr ⟨hq, h1⟩
    have hfl : 1 ≤ ⌊q⁻¹⌋ := Int.le_floor.mpr (by exact_mod_cast le_of_lt hp)
    have hn0 : ⌊q⁻¹⌋.toNat ≠ 0 := by omega
    have h2 : (10 : ℕ) ^ Nat.log 10 ⌊q⁻¹⌋.toNat ≤ ⌊q⁻¹⌋.toNat := Nat.pow_log_le_self 10 hn0
    have h3 : ((⌊q⁻¹⌋.toNat : ℕ) : ℚ) ≤ q⁻¹ := by
      have := Int.floor_le q⁻¹
      have htn : ((⌊q⁻¹⌋.toNat : ℤ) : ℚ) = ((⌊q⁻¹⌋ : ℤ) : ℚ) := by
        rw [Int.toNat_of_nonneg (by omega)]
      push_cast at htn ⊢
      linarith
    have h4 : ((10 ^ Nat.log 10 ⌊q⁻¹⌋.toNat : ℕ) : ℚ) ≤ q⁻¹ :=
      le_trans (by exact_mod_cast h2) h3
    rw [qpow_neg_nat]
    rw [le_div_iff₀ (by positivity)]
    have h5 : q * ((10 ^ Nat.log 10 ⌊q⁻¹⌋.toNat : ℕ) : ℚ) ≤ q * q⁻¹ :=
      mul_le_mul_of_nonneg_left h4 (le_of_lt hq)
    rw [mul_inv_cancel₀ (ne_of_gt hq)] at h5
    push_cast at h5 ⊢
    linarith

theorem log10ceilPos_pred_lt {q : ℚ} (hq : 0 < q) :
    (10 : ℚ) ^ (log10ceilPos q - 1) < q := by
  unfold log10ceilPos
  by_cases h1 : 1 ≤ q
  · rw [if_pos h1]
    have hcl : 1 ≤ ⌈q⌉ := by
      have := Int.le_ceil q
      have h : (1 : ℚ) ≤ ((⌈q⌉ : ℤ) : ℚ) := by linarith
      exact_mod_cast h
    by_cases hm : ⌈q⌉.toNat = 1
    · rw [hm]
      have hc : Nat.clog 10 1 = 0 := Nat.clog_of_right_le_one (by norm_num) 10
      rw [hc]
      have hz : ((0 : ℕ) : ℤ) - 1 = -((1 : ℕ) : ℤ) := by norm_num
      rw [hz, qpow_neg_nat]
      calc (1 : ℚ) / 10 ^ 1 < 1 := by norm_num
        _ ≤ q := h1
    · have hm2 : 2 ≤ ⌈q⌉.toNat := by omega
      have hC1 : 1 ≤ Nat.clog 10 ⌈q⌉.toNat := Nat.clog_pos (by norm_num) hm2
      have h2 : 10 ^ (Nat.clog 10 ⌈q⌉.toNat - 1) < ⌈q⌉.toNat :=
        Nat.pow_pred_clog_lt_self (by norm_num) hm2
      have h3 : ((10 ^ (Nat.clog 10 ⌈q⌉.toNat - 1) : ℕ) : ℚ) < q := by
        have hceil : ((⌈q⌉.toNat : ℕ) : ℚ) < q + 1 := by
          have := Int.ceil_lt_add_one q
          have htn : ((⌈q⌉.toNat : ℤ) : ℚ) = ((⌈q⌉ : ℤ) : ℚ) := by
            rw [Int.toNat_of_nonneg (by omega)]
          push_cast at htn ⊢
          linarith
        have h5 : (10 ^ (Nat.clog 10 ⌈q⌉.toNat - 1) : ℕ) + 1 ≤ ⌈q⌉.toNat := h2
        have h6 : ((10 ^ (Nat.clog 10 ⌈q⌉.toNat - 1) : ℕ) : ℚ) + 1 ≤ ((⌈q⌉.toNat : ℕ) : ℚ) := by
          exact_mod_cast h5
        linarith
      have hz : ((Nat.clog 10 ⌈q⌉.toNat : ℕ) : ℤ) - 1
          = (((Nat.clog 10 ⌈q⌉.toNat - 1 : ℕ) : ℤ)) := by omega
      rw [hz, qpow_nat]
      push_cast at h3 ⊢
      linarith
  · rw [if_neg h1]
    push_neg at h1
    have hp : 1 < q⁻¹ := one_lt_inv_iff₀.mpr ⟨hq, h1⟩
    have hfl : 1 ≤ ⌊q⁻¹⌋ := Int.le_floor.mpr (by exact_mod_cast le_of_lt hp)
    have hn0 : ⌊q⁻¹⌋.toNat ≠ 0 := by omega
    have h2 : ⌊q⁻¹⌋.toNat < 10 ^ (Nat.log 10 ⌊q⁻¹⌋.toNat + 1) :=
      Nat.lt_pow_succ_log_self (by norm_num) _
    have h3 : q⁻¹ < ((10 ^ (Nat.log 10 ⌊q⁻¹⌋.toNat + 1) : ℕ) : ℚ) := by
      have hfloor : q⁻¹ < ((⌊q⁻¹⌋.toNat : ℕ) : ℚ) + 1 := by
        have := Int.lt_floor_add_one q⁻¹
        have htn : ((⌊q⁻¹⌋.toNat : ℤ) : ℚ) = ((⌊q⁻¹⌋ : ℤ) : ℚ) := by
          rw [Int.toNat_of_nonneg (by omega)]
        push_cast at htn ⊢
        linarith
      have h5 : ⌊q⁻¹⌋.toNat + 1 ≤ 10 ^ (Nat.log 10 ⌊q⁻¹⌋.toNat + 1) := h2
      have h6 : ((⌊q⁻¹⌋.toNat : ℕ) : ℚ) + 1 ≤ ((10 ^ (Nat.log 10 ⌊q⁻¹⌋.toNat + 1) : ℕ) : ℚ) := by
        exact_mod_cast h5
      linarith
    have hz : -((Nat.log 10 ⌊q⁻¹⌋.toNat : ℕ) : ℤ) - 1
        = -(((Nat.log 10 ⌊q⁻¹⌋.toNat + 1 : ℕ) : ℤ)) := by omega
    rw [hz, qpow_neg_nat]
    rw [div_lt_iff₀ (by positivity)]
    have h7 : 1 < q * ((10 ^ (Nat.log 10 ⌊q⁻¹⌋.toNat + 1) : ℕ) : ℚ) := by
      have := mul_lt_mul_of_pos_left h3 hq
      rw [mul_inv_cancel₀ (ne_of_gt hq)] at this
      linarith
    push_cast at h7 ⊢
    linarith

theorem log10floorPos_eq_of {q : ℚ} {z : ℤ} (h1 : (10 : ℚ) ^ z ≤ q)
    (h2 : q < (10 : ℚ) ^ (z + 1)) : log10floorPos q = z := by
  have hq : 0 < q := lt_of_lt_of_le (by positivity) h1
  by_contra hne
  rcases lt_or_gt_of_ne hne with hlt | hgt
  · have : (10 : ℚ) ^ (log10floorPos q + 1) ≤ (10 : ℚ) ^ z :=
      zpow_le_zpow_right₀ (by norm_num) (by omega)
    have := lt_log10floorPos_succ hq
    linarith
  · have : (10 : ℚ) ^ (z + 1) ≤ (10 : ℚ) ^ log10floorPos q :=
      zpow_le_zpow_right₀ (by norm_num) (by omega)
    have := log10floorPos_le hq
    linarith

theorem log10ceilPos_eq_of {q : ℚ} {z : ℤ} (h1 : (10 : ℚ) ^ (z - 1) < q)
    (h2 : q ≤ (10 : ℚ) ^ z) : log10ceilPos q = z := by
  have hq : 0 < q := lt_trans (by positivity) h1
  by_contra hne
  rcases lt_or_gt_of_ne hne with hlt | hgt
  · have : (10 : ℚ) ^ log10ceilPos q ≤ (10 : ℚ) ^ (z - 1) :=
      zpow_le_zpow_right₀ (by norm_num) (by omega)
    have := le_log10ceilPos hq
    linarith
  · have : (10 : ℚ) ^ z ≤ (10 : ℚ) ^ (log10ceilPos q - 1) :=
      zpow_le_zpow_right₀ (by norm_num) (by omega)
    have := log10ceilPos_pred_lt hq
    linarith

/- ------------------------------------------------------------------ -/
/- Lemmas: floor/ceiling candidate ranges                              -/
/- ------------------------------------------------------------------ -/

theorem rangeFloorCeil_eval {q : ℚ} (zf zc : ℤ) (hq : 0 < q)
    (hf1 : (10 : ℚ) ^ zf ≤ q / 2) (hf2 : q / 2 < (10 : ℚ) ^ (zf + 1))
    (hc1 : (10 : ℚ) ^ (zc - 1) < q / 2) (hc2 : q / 2 ≤ (10 : ℚ) ^ zc)
    (hfc : ¬(2 * (10 : ℚ) ^ zf < 2e-15)) (hcc : ¬(2 * (10 : ℚ) ^ zc < 2e-15)) :
    rangeFloorCeil q = (2 * (10 : ℚ) ^ zf, 2 * (10 : ℚ) ^ zc) := by
  unfold rangeFloorCeil
  rw [if_neg (ne_of_gt hq)]
  rw [log10floorPos_eq_of hf1 hf2, log10ceilPos_eq_of hc1 hc2]
  simp only [if_neg hfc, if_neg hcc]

theorem rangeFloorCeil_zero : rangeFloorCeil 0 = (2e-13, 2e-11) := by
  unfold rangeFloorCeil
  simp

theorem rangeFloorCeil_low {q : ℚ} (h1 : 2e-11 < q) (h2 : q < 2e-10) :
    rangeFloorCeil q = (2e-11, 2e-10) := by
  have h := rangeFloorCeil_eval (q := q) (-11) (-10)
    (by linarith [h1]) (by norm_num; linarith [h1]) (by norm_num; linarith [h2])
    (by norm_num; linarith [h1]) (by norm_num; linarith [h2]) (by norm_num) (by norm_num)
  rw [h]
  norm_num

theorem rangeFloorCeil_mid {q : ℚ} (h1 : 2e-10 < q) (h2 : q < 2e-9) :
    rangeFloorCeil q = (2e-10, 2e-9) := by
  have h := rangeFloorCeil_eval (q := q) (-10) (-9)
    (by norm_num at h1 ⊢; linarith) (by norm_num at h1 ⊢; linarith)
    (by norm_num at h2 ⊢; linarith) (by norm_num at h1 ⊢; linarith)
    (by norm_num at h2 ⊢; linarith) (by norm_num) (by norm_num)
  rw [h]
  norm_num

theorem rangeFloorCeil_snd_le {r : ℚ} (hr : 0 ≤ r)
    (h : (rangeFloorCeil r).2 = 2e-9) : 0 < r ∧ r ≤ 2e-9 := by
  rcases eq_or_lt_of_le hr with h0 | hpos
  · rw [← h0, rangeFloorCeil_zero] at h
    norm_num at h
  refine ⟨hpos, ?_⟩
  have hq2 : 0 < r / 2 := by positivity
  unfold rangeFloorCeil at h
  rw [if_neg (ne_of_gt hpos)] at h
  simp only at h
  split_ifs at h with hcl
  · norm_num at h
  · have h10 : (10 : ℚ) ^ log10ceilPos (r / 2) = (10 : ℚ) ^ (-9 : ℤ) := by
      have h2 : 2 * (10 : ℚ) ^ log10ceilPos (r / 2) = 2 * (10 : ℚ) ^ (-9 : ℤ) := by
        rw [h]; norm_num
      exact mul_left_cancel₀ (by norm_num) h2
    have hz : log10ceilPos (r / 2) = (-9 : ℤ) :=
      zpow_right_injective₀ (by norm_num) (by norm_num) h10
    have := le_log10ceilPos hq2
    rw [hz] at this
    norm_num at this
    linarith


/- ------------------------------------------------------------------ -/
/- Claims C1 and C10: the RangeSelector decision rule                  -/
/- ------------------------------------------------------------------ -/

theorem decisionBranches (flr cer r m : ℚ) :
    (if cer < m then cer
      else if m ≤ flr then
        if 0 < r ∧ r < 1 then cer
        else if 1 < r then if m ≤ 2e-3 then m * 10 else m
        else m
      else m)
    = (if cer < m then cer
        else if m ≤ flr ∧ 0 < r ∧ r < 1 then cer
        else if m ≤ flr ∧ 1 < r ∧ m ≤ 2e-3 then m * 10
        else m) := by
  split_ifs <;> first | rfl | tauto

/-- Claim C1, counterexample: at reading magnitude `r = 1e-9` and current
range `m = 2e-7` the code substitutes `2e-8` for the computed ceiling
`2e-9` (hysteresis, line 484) and narrows to `2e-8`, while the decision
rule as claimed (no substitution) narrows to the ceiling `2e-9`. -/
theorem rangeSelector_decision_cex :
    selectRange false 1e-9 2e-7 = 2e-8 ∧ selectRangeClaimed false 1e-9 2e-7 = 2e-9 ∧
    selectRange false 1e-9 2e-7 ≠ selectRangeClaimed false 1e-9 2e-7 := by
  have hfc := rangeFloorCeil_mid (q := 1e-9) (by norm_num) (by norm_num)
  have ha : selectRange false 1e-9 2e-7 = 2e-8 := by
    simp only [selectRange, Bool.false_eq_true, if_false, rangeDecision]
    rw [hfc]
    norm_num
  have hb : selectRangeClaimed false 1e-9 2e-7 = 2e-9 := by
    simp only [selectRangeClaimed, Bool.false_eq_true, if_false]
    rw [hfc]
    norm_num
  refine ⟨ha, hb, ?_⟩
  rw [ha, hb]
  norm_num

/-- Claim C1 (amended): for every reading magnitude `r ≥ 0`, range `m`
and mode flag, the manual-mode decision follows the claimed ordered rule
with two changes forced by the code: after the clamps, a computed ceiling
of `2e-9` is replaced by `2e-8` whenever `r > 0.8e-9`, and the widen-by-a-
decade branch applies only to strictly overflowing readings (`r > 1`, not
`r ≥ 1`); in auto mode the range is returned unchanged. -/
theorem rangeSelector_decision_amended (auto : Bool) (r m : ℚ) (hr : 0 ≤ r) :
    selectRange auto r m = selectRangeAmended auto r m := by
  cases auto with
  | true => rfl
  | false =>
    simp only [selectRange, selectRangeAmended, rangeDecision, Bool.false_eq_true, if_false]
    have hsub : (if (rangeFloorCeil r).2 = 2e-9 ∧ 0.8e-9 < r
          then (rangeFloorCeil r).2 * 10 else (rangeFloorCeil r).2)
        = (if (rangeFloorCeil r).2 = 2e-9 ∧ 0.8e-9 < r then (2e-8 : ℚ)
          else (rangeFloorCeil r).2) := by
      split_ifs with h
      · rw [h.1]; norm_num
      · rfl
    rw [hsub]
    exact decisionBranches ((rangeFloorCeil r).1) _ r m

/-- Witness for the amended C1 theorem at `r = 1`, `m = 2`. -/
theorem rangeSelector_decision_amended_witness :
    (0 : ℚ) ≤ 1 ∧ selectRange false 1 2 = selectRangeAmended false 1 2 :=
  ⟨by norm_num, rangeSelector_decision_amended false 1 2 (by norm_num)⟩

/-- Claim C10: whenever the computed (clamped) ceiling equals `2e-9` and
the reading magnitude exceeds `0.8e-9`, the selector substitutes `2e-8`
for the ceiling: any range above `2e-8` is narrowed to `2e-8` (never to
`2e-9`), and the decision returns `2e-9` only when the range was already
`2e-9` (the unchanged case).  Only the sticky-fault guard of
lines 515-517 can force `2e-9`. -/
theorem hysteresis_2nA (r m : ℚ) (h1 : (rangeFloorCeil r).2 = 2e-9)
    (h2 : 0.8e-9 < r) :
    (2e-8 < m → selectRange false r m = 2e-8) ∧
    (selectRange false r m = 2e-9 → m = 2e-9) := by
  have hr0 : 0 ≤ r := le_of_lt (lt_trans (by norm_num) h2)
  obtain ⟨hpos, hle⟩ := rangeFloorCeil_snd_le hr0 h1
  have hr1 : r < 1 := lt_of_le_of_lt hle (by norm_num)
  have hcer : (if (rangeFloorCeil r).2 = 2e-9 ∧ 0.8e-9 < r
        then (rangeFloorCeil r).2 * 10 else (rangeFloorCeil r).2) = 2e-8 := by
    rw [if_pos ⟨h1, h2⟩, h1]; norm_num
  constructor
  · intro hm
    simp only [selectRange, Bool.false_eq_true, if_false, rangeDecision]
    rw [hcer, if_pos hm]
  · intro hsel
    simp only [selectRange, Bool.false_eq_true, if_false, rangeDecision] at hsel
    rw [hcer] at hsel
    by_cases hc1 : 2e-8 < m
    · rw [if_pos hc1] at hsel; norm_num at hsel
    · rw [if_neg hc1] at hsel
      by_cases hc2 : m ≤ (rangeFloorCeil r).1
      · rw [if_pos hc2, if_pos ⟨hpos, hr1⟩] at hsel; norm_num at hsel
      · rwa [if_neg hc2] at hsel

/-- Witness for the C10 theorem at `r = 1e-9`, `m = 2e-7`. -/
theorem hysteresis_2nA_witness :
    ((rangeFloorCeil 1e-9).2 = 2e-9 ∧ (0.8e-9 : ℚ) < 1e-9) ∧
    ((2e-8 < (2e-7 : ℚ) → selectRange false 1e-9 2e-7 = 2e-8) ∧
      (selectRange false 1e-9 2e-7 = 2e-9 → (2e-7 : ℚ) = 2e-9)) :=
  ⟨⟨by rw [rangeFloorCeil_mid (by norm_num) (by norm_num)], by norm_num⟩,
    hysteresis_2nA 1e-9 2e-7
      (by rw [rangeFloorCeil_mid (by norm_num) (by norm_num)]) (by norm_num)⟩

/- ------------------------------------------------------------------ -/
/- Claim C7: parameter validation                                      -/
/- ------------------------------------------------------------------ -/

/-- Claim C7, counterexample: `step_v = 0` passes validation (the
`validate` bounds of `Numbers(0, max_v)` are inclusive of 0), `num_sweep
= 0` is not validated at all, and conversely `max_v = 0` -- which
satisfies the claimed invariants `0 ≤ step ≤ max ≤ 1000`, `num_sweeps ≥
1` -- is rejected at configuration time because the `Numbers(0, max_v)`
constructor requires `max_value > min_value`.  All three contradict the
claim. -/
theorem set_parameters_cex :
    set_parameters_ok 10 0 1 = true ∧ set_parameters_ok 10 2 0 = true ∧
    set_parameters_ok 0 0 1 = false := by
  refine ⟨?_, ?_, ?_⟩ <;> (simp only [set_parameters_ok]; norm_num)

/-- Claim C7 (amended): `set_parameters` raises a configuration-time
error exactly when `0 ≤ step_voltage ≤ max_voltage ≤ 1000` with
`0 < max_voltage` is violated: `step_voltage = 0` passes validation for
positive `max_voltage` (a zero step is only rejected later, inside the
sweep, by `np.arange`), `max_voltage = 0` is rejected by the
`Numbers(0, max_v)` constructor (`max_value` must be strictly bigger than
`min_value`), and `num_sweeps` is never checked. -/
theorem set_parameters_exact (max_v step_v : ℚ) (num_sweep : ℤ) :
    set_parameters_ok max_v step_v num_sweep = true ↔
      (0 ≤ step_v ∧ step_v ≤ max_v ∧ max_v ≤ 1000 ∧ 0 < max_v) := by
  simp only [set_parameters_ok]
  split_ifs with h1 h2 h3
  · exact ⟨fun _ => ⟨h3.1, h3.2, h1.2, h2⟩, fun _ => rfl⟩
  · simp only [Bool.false_eq_true, false_iff]
    intro h
    exact h3 ⟨h.1, h.2.1⟩
  · simp only [Bool.false_eq_true, false_iff]
    intro h
    exact h2 h.2.2.2
  · simp only [Bool.false_eq_true, false_iff]
    intro h
    exact h1 ⟨le_trans h.1 h.2.1, h.2.2.1⟩

/- ------------------------------------------------------------------ -/
/- Claim C8: safety interlock pre-check                                -/
/- ------------------------------------------------------------------ -/

/-- Claim C8, counterexample: at exactly `max_v = 36` with the interlock
open the code raises (`>=` on line 84), while the claim says only
voltages exceeding 36 V require the interlock, so at 36 V the session
should proceed. -/
theorem door_check_cex :
    door_closed_or_not_raises 36 false = true ∧ ¬((36 : ℚ) > 36) := by
  constructor
  · simp only [door_closed_or_not_raises]
    norm_num
  · norm_num

/-- Claim C8 (amended): the pre-check aborts with the safety error
exactly when the configured max voltage is at or above the 36 V threshold
(`max_v >= 36`, inclusive) and the interlock signal is not satisfied;
strictly below 36 V, or with the interlock closed, it proceeds. -/
theorem door_check_exact (max_v : ℚ) (interlock : Bool) :
    door_closed_or_not_raises max_v interlock = true ↔
      (36 ≤ max_v ∧ interlock = false) := by
  simp only [door_closed_or_not_raises]
  split_ifs with h1 h2
  · exact ⟨fun _ => ⟨h1, h2⟩, fun _ => rfl⟩
  · simp only [Bool.false_eq_true, false_iff]
    intro h
    exact h2 h.2
  · simp only [Bool.false_eq_true, false_iff]
    intro h
    exact h1 h.1

/- ------------------------------------------------------------------ -/
/- Claim C9: safe shutdown and partial persistence                     -/
/- ------------------------------------------------------------------ -/

/-- Claim C9, counterexample: a TSEQ session whose first sweep raises a
non-KeyboardInterrupt exception exits with the source still energized
(only the KeyboardInterrupt handler of lines 284-288 calls `operate(0)`),
contradicting the claim that every fatal error path disables the source
output before the session returns. -/
theorem tseq_fail_cex :
    (tseqSession 1 fun _ => SweepOutcome.fail).sourceOn = true ∧
    (tseqSession 1 fun _ => SweepOutcome.fail).raised = true := by
  constructor <;> simp [tseqSession, tseqLoop]

theorem tseqLoop_ok_prefix (out : ℕ → SweepOutcome) :
    ∀ (i idx acc fuel : ℕ),
      (∀ j, idx ≤ j → j < idx + i → out j = SweepOutcome.ok) → i ≤ fuel →
      tseqLoop out idx fuel acc false = tseqLoop out (idx + i) (fuel - i) (acc + i) false := by
  intro i
  induction i with
  | zero => intro idx acc fuel _ _; simp
  | succ i ih =>
      intro idx acc fuel hok hfuel
      match fuel, hfuel with
      | f + 1, hfuel =>
        have h0 : out idx = SweepOutcome.ok := hok idx (le_refl idx) (by omega)
        have step : tseqLoop out idx (f + 1) acc false
            = tseqLoop out (idx + 1) f (acc + 1) false := by
          simp only [tseqLoop, h0]
        rw [step, ih (idx + 1) (acc + 1) f (fun j h1 h2 => hok j (by omega) (by omega)) (by omega)]
        congr 1 <;> omega

/-- Claim C9 (amended): in the TSEQ session, if the first `i` sweeps
complete normally, then on user cancellation of sweep `i` the source
output is disabled before the session returns and the `i` completed
sweeps are logged/persisted; but if sweep `i` fails with any other
exception, the source output is left energized and the post-loop
logging is skipped (the exception propagates). -/
theorem tseq_shutdown (n i : ℕ) (out : ℕ → SweepOutcome)
    (hok : ∀ j, j < i → out j = SweepOutcome.ok) (hi : i < n) :
    (out i = SweepOutcome.cancel →
      (tseqSession n out).sourceOn = false ∧ (tseqSession n out).persisted = true ∧
      (tseqSession n out).completed = i ∧ (tseqSession n out).raised = false) ∧
    (out i = SweepOutcome.fail →
      (tseqSession n out).sourceOn = true ∧ (tseqSession n out).persisted = false ∧
      (tseqSession n out).completed = i ∧ (tseqSession n out).raised = true) := by
  have hpre := tseqLoop_ok_prefix out i 0 0 n (fun j h1 h2 => hok j (by omega)) (by omega)
  simp only [Nat.zero_add] at hpre
  have hsession : tseqSession n out = tseqLoop out i (n - i) i false := by
    unfold tseqSession
    rw [hpre]
  match hni : n - i, (show 1 ≤ n - i by omega) with
  | f + 1, _ =>
    constructor
    · intro hc
      rw [hsession, hni]
      simp [tseqLoop, hc]
    · intro hc
      rw [hsession, hni]
      simp [tseqLoop, hc]

/-- Witness for the amended C9 theorem: a 2-sweep session cancelled at
the first sweep. -/
theorem tseq_shutdown_witness :
    ((∀ j, j < 0 → (fun _ => SweepOutcome.cancel) j = SweepOutcome.ok) ∧ 0 < 2) ∧
    (((fun _ => SweepOutcome.cancel) 0 = SweepOutcome.cancel →
      (tseqSession 2 fun _ => SweepOutcome.cancel).sourceOn = false ∧
      (tseqSession 2 fun _ => SweepOutcome.cancel).persisted = true ∧
      (tseqSession 2 fun _ => SweepOutcome.cancel).completed = 0 ∧
      (tseqSession 2 fun _ => SweepOutcome.cancel).raised = false) ∧
    ((fun _ => SweepOutcome.cancel) 0 = SweepOutcome.fail →
      (tseqSession 2 fun _ => SweepOutcome.cancel).sourceOn = true ∧
      (tseqSession 2 fun _ => SweepOutcome.cancel).persisted = false ∧
      (tseqSession 2 fun _ => SweepOutcome.cancel).completed = 0 ∧
      (tseqSession 2 fun _ => SweepOutcome.cancel).raised = true)) :=
  ⟨⟨fun j hj => absurd hj (by omega), by omega⟩,
    tseq_shutdown 2 0 (fun _ => SweepOutcome.cancel) (fun j hj => absurd hj (by omega))
      (by omega)⟩

/- ------------------------------------------------------------------ -/
/- Lemmas: sweep loop structure                                        -/
/- ------------------------------------------------------------------ -/

theorem stepChunk_zero (npts : ℕ) (g : ℕ → ℕ → α) (k : ℕ) :
    stepChunk npts g k 0 = [] := rfl

theorem stepChunk_succ (npts : ℕ) (g : ℕ → ℕ → α) (k f : ℕ) :
    stepChunk npts g k (f + 1) = (List.range npts).map (g k) ++ stepChunk npts g (k + 1) f := by
  unfold stepChunk
  rw [List.range'_succ, List.flatMap_cons]

theorem stepChunk_length (npts : ℕ) (g : ℕ → ℕ → α) (k f : ℕ) :
    (stepChunk npts g k f).length = f * npts := by
  induction f generalizing k with
  | zero => simp [stepChunk_zero]
  | succ f ih =>
      rw [stepChunk_succ, List.length_append, List.length_map, List.length_range, ih]
      ring

theorem stepChunk_getElem (npts : ℕ) (g : ℕ → ℕ → α) (k f i : ℕ)
    (hn : 0 < npts) (hi : i < f * npts) :
    (stepChunk npts g k f)[i]? = some (g (k + i / npts) (i % npts)) := by
  induction f generalizing k i with
  | zero => omega
  | succ f ih =>
      rw [stepChunk_succ, List.getElem?_append]
      by_cases hcase : i < npts
      · rw [if_pos (by rw [List.length_map, List.length_range]; exact hcase)]
        rw [List.getElem?_map, List.getElem?_range hcase]
        have h1 : i / npts = 0 := Nat.div_eq_of_lt hcase
        have h2 : i % npts = i := Nat.mod_eq_of_lt hcase
        rw [h1, h2]
        simp
      · push_neg at hcase
        rw [if_neg (by rw [List.length_map, List.length_range]; omega)]
        rw [List.length_map, List.length_range]
        rw [ih (k + 1) (i - npts)
          (by have hmul : (f + 1) * npts = f * npts + npts := by ring
              omega)]
        have h1 : i / npts = (i - npts) / npts + 1 := Nat.div_eq_sub_div hn hcase
        have h2 : i % npts = (i - npts) % npts := Nat.mod_eq_sub_mod hcase
        rw [h1, h2]
        congr 2
        omega

theorem processStep_curr (auto : Bool) (start step : ℚ) (npts : ℕ)
    (rd : ℕ → ℕ → ℚ × ℚ) (st : RunState) (k : ℕ) :
    (processStep auto start step npts rd st k).curr
      = st.curr ++ (List.range npts).map fun p => (rd k p).1 := by
  cases auto <;> rfl

theorem processStep_tim (auto : Bool) (start step : ℚ) (npts : ℕ)
    (rd : ℕ → ℕ → ℚ × ℚ) (st : RunState) (k : ℕ) :
    (processStep auto start step npts rd st k).tim
      = st.tim ++ (List.range npts).map fun p => (rd k p).2 := by
  cases auto <;> rfl

theorem processStep_volt (auto : Bool) (start step : ℚ) (npts : ℕ)
    (rd : ℕ → ℕ → ℚ × ℚ) (st : RunState) (k : ℕ) :
    (processStep auto start step npts rd st k).volt
      = st.volt ++ (List.range npts).map fun _ => start + (k : ℚ) * step := by
  cases auto <;> rfl

theorem runLoop_zero (auto : Bool) (start step : ℚ) (npts : ℕ)
    (rd : ℕ → ℕ → ℚ × ℚ) (k : ℕ) (st : RunState) :
    runLoop auto start step npts rd k 0 st = st := rfl

theorem runLoop_succ (auto : Bool) (start step : ℚ) (npts : ℕ)
    (rd : ℕ → ℕ → ℚ × ℚ) (k f : ℕ) (st : RunState) :
    runLoop auto start step npts rd k (f + 1) st
      = runLoop auto start step npts rd (k + 1) f (processStep auto start step npts rd st k) := rfl

theorem runLoop_add (auto : Bool) (start step : ℚ) (npts : ℕ)
    (rd : ℕ → ℕ → ℚ × ℚ) (a : ℕ) :
    ∀ (k b : ℕ) (st : RunState),
      runLoop auto start step npts rd k (a + b) st
        = runLoop auto start step npts rd (k + a) b (runLoop auto start step npts rd k a st) := by
  induction a with
  | zero => intro k b st; simp [runLoop_zero]
  | succ a ih =>
      intro k b st
      have h1 : a + 1 + b = (a + b) + 1 := by omega
      rw [h1, runLoop_succ, ih]
      congr 1
      omega

theorem runLoop_curr (auto : Bool) (start step : ℚ) (npts : ℕ) (rd : ℕ → ℕ → ℚ × ℚ) :
    ∀ (f k : ℕ) (st : RunState),
      (runLoop auto start step npts rd k f st).curr
        = st.curr ++ stepChunk npts (fun j p => (rd j p).1) k f := by
  intro f
  induction f with
  | zero => intro k st; simp [runLoop_zero, stepChunk_zero]
  | succ f ih =>
      intro k st
      rw [runLoop_succ, ih, processStep_curr, stepChunk_succ, List.append_assoc]

theorem runLoop_tim (auto : Bool) (start step : ℚ) (npts : ℕ) (rd : ℕ → ℕ → ℚ × ℚ) :
    ∀ (f k : ℕ) (st : RunState),
      (runLoop auto start step npts rd k f st).tim
        = st.tim ++ stepChunk npts (fun j p => (rd j p).2) k f := by
  intro f
  induction f with
  | zero => intro k st; simp [runLoop_zero, stepChunk_zero]
  | succ f ih =>
      intro k st
      rw [runLoop_succ, ih, processStep_tim, stepChunk_succ, List.append_assoc]

theorem runLoop_volt (auto : Bool) (start step : ℚ) (npts : ℕ) (rd : ℕ → ℕ → ℚ × ℚ) :
    ∀ (f k : ℕ) (st : RunState),
      (runLoop auto start step npts rd k f st).volt
        = st.volt ++ stepChunk npts (fun j _ => start + (j : ℚ) * step) k f := by
  intro f
  induction f with
  | zero => intro k st; simp [runLoop_zero, stepChunk_zero]
  | succ f ih =>
      intro k st
      rw [runLoop_succ, ih, processStep_volt, stepChunk_succ, List.append_assoc]

theorem headD_map_range (npts : ℕ) (f : ℕ → ℚ) (hn : 0 < npts) :
    ((List.range npts).map f).headD 0 = f 0 := by
  obtain ⟨m, rfl⟩ := Nat.exists_eq_succ_of_ne_zero (Nat.pos_iff_ne_zero.mp hn)
  rw [List.range_succ_eq_map]
  simp

theorem flagIndex_eq (start step : ℚ) (k : ℕ) (h : step ≠ 0) :
    (⌊((start + (k : ℚ) * step) - start) / step⌋).toNat = k := by
  have h1 : ((start + (k : ℚ) * step) - start) / step = (k : ℚ) := by
    field_simp
  rw [h1, Int.floor_natCast]
  exact Int.toNat_natCast k

/- ------------------------------------------------------------------ -/
/- Lemmas: invalidation and post-filter                                -/
/- ------------------------------------------------------------------ -/

theorem setNone_fold_length (idx : List ℕ) :
    ∀ acc : List (Option ℚ), (idx.foldl (fun a i => a.set i none) acc).length = acc.length := by
  induction idx with
  | nil => intro acc; rfl
  | cons j rest ih =>
      intro acc
      rw [List.foldl_cons, ih, List.length_set]

theorem setNone_fold_get_not_mem (idx : List ℕ) :
    ∀ (acc : List (Option ℚ)) (i : ℕ), i ∉ idx →
      (idx.foldl (fun a i => a.set i none) acc)[i]? = acc[i]? := by
  induction idx with
  | nil => intro acc i _; rfl
  | cons j rest ih =>
      intro acc i hmem
      rw [List.foldl_cons, ih _ i (fun h => hmem (List.mem_cons_of_mem j h))]
      exact List.getElem?_set_ne fun h => hmem (by rw [← h]; exact List.mem_cons_self j rest)

theorem setNone_fold_get_mem (idx : List ℕ) :
    ∀ (acc : List (Option ℚ)) (i : ℕ), i ∈ idx → i < acc.length →
      (idx.foldl (fun a i => a.set i none) acc)[i]? = some none := by
  induction idx with
  | nil => intro acc i hmem _; exact absurd hmem (List.not_mem_nil i)
  | cons j rest ih =>
      intro acc i hmem hlen
      rw [List.foldl_cons]
      by_cases hr : i ∈ rest
      · exact ih _ i hr (by rw [List.length_set]; exact hlen)
      · have hij : i = j := by
          rcases List.mem_cons.mp hmem with h | h
          · exact h
          · exact absurd h hr
        subst hij
        rw [setNone_fold_get_not_mem rest _ i hr]
        rw [List.getElem?_set_self]
        exact hlen

theorem setNone_fold_get_cases (idx : List ℕ) (acc : List (Option ℚ)) (i : ℕ) :
    (idx.foldl (fun a i => a.set i none) acc)[i]? = acc[i]? ∨
      ((idx.foldl (fun a i => a.set i none) acc)[i]? = some none ∧ i ∈ idx) := by
  by_cases hmem : i ∈ idx
  · by_cases hlen : i < acc.length
    · exact Or.inr ⟨setNone_fold_get_mem idx acc i hmem hlen, hmem⟩
    · left
      push_neg at hlen
      rw [List.getElem?_eq_none hlen, List.getElem?_eq_none]
      rw [setNone_fold_length]
      exact hlen
  · exact Or.inl (setNone_fold_get_not_mem idx acc i hmem)

theorem invalidate_false (idx : List ℕ) (l : List ℚ) :
    invalidate false idx l = l.map some := rfl

theorem invalidate_length (b : Bool) (idx : List ℕ) (l : List ℚ) :
    (invalidate b idx l).length = l.length := by
  cases b
  · rw [invalidate_false, List.length_map]
  · show (idx.foldl (fun a i => a.set i none) (l.map some)).length = l.length
    rw [setNone_fold_length, List.length_map]

theorem invalidate_get_not_mem (b : Bool) (idx : List ℕ) (l : List ℚ) (i : ℕ)
    (h : i ∉ idx) : (invalidate b idx l)[i]? = (l.map some)[i]? := by
  cases b
  · rw [invalidate_false]
  · exact setNone_fold_get_not_mem idx _ i h

theorem invalidate_get_mem (idx : List ℕ) (l : List ℚ) (i : ℕ)
    (hmem : i ∈ idx) (hlen : i < l.length) :
    (invalidate true idx l)[i]? = some none := by
  show (idx.foldl (fun a i => a.set i none) (l.map some))[i]? = some none
  exact setNone_fold_get_mem idx _ i hmem (by rw [List.length_map]; exact hlen)

theorem invalidate_get_cases (b : Bool) (idx : List ℕ) (l : List ℚ) (i : ℕ) :
    (invalidate b idx l)[i]? = (l.map some)[i]? ∨
      ((invalidate b idx l)[i]? = some none ∧ i ∈ idx) := by
  cases b
  · exact Or.inl (by rw [invalidate_false])
  · exact setNone_fold_get_cases idx _ i

theorem overflowFilter_some (c : ℚ) :
    overflowFilter (some c) = if 1 < c then none else some c := rfl

theorem overflowFilter_none : overflowFilter none = none := rfl

/- ------------------------------------------------------------------ -/
/- Lemmas: singleRun projections                                       -/
/- ------------------------------------------------------------------ -/

theorem singleRun_start (auto : Bool) (start step stop : ℚ) (npts : ℕ) (mr0 : ℚ)
    (rd : ℕ → ℕ → ℚ × ℚ) : (singleRun auto start step stop npts mr0 rd).start = start := rfl

theorem singleRun_step (auto : Bool) (start step stop : ℚ) (npts : ℕ) (mr0 : ℚ)
    (rd : ℕ → ℕ → ℚ × ℚ) : (singleRun auto start step stop npts mr0 rd).step = step := rfl

theorem singleRun_stop (auto : Bool) (start step stop : ℚ) (npts : ℕ) (mr0 : ℚ)
    (rd : ℕ → ℕ → ℚ × ℚ) : (singleRun auto start step stop npts mr0 rd).stop = stop := rfl

theorem singleRun_flagCnt (auto : Bool) (start step stop : ℚ) (npts : ℕ) (mr0 : ℚ)
    (rd : ℕ → ℕ → ℚ × ℚ) :
    (singleRun auto start step stop npts mr0 rd).flagCnt
      = (runLoop auto start step npts rd 0 (numSteps start step stop) (initState mr0)).cnt := rfl

theorem singleRun_flagIdx (auto : Bool) (start step stop : ℚ) (npts : ℕ) (mr0 : ℚ)
    (rd : ℕ → ℕ → ℚ × ℚ) :
    (singleRun auto start step stop npts mr0 rd).flagIdx
      = (runLoop auto start step npts rd 0 (numSteps start step stop) (initState mr0)).idx := rfl

theorem singleRun_range (auto : Bool) (start step stop : ℚ) (npts : ℕ) (mr0 : ℚ)
    (rd : ℕ → ℕ → ℚ × ℚ) :
    (singleRun auto start step stop npts mr0 rd).range
      = (runLoop auto start step npts rd 0 (numSteps start step stop) (initState mr0)).mr := rfl

theorem singleRun_current (auto : Bool) (start step stop : ℚ) (npts : ℕ) (mr0 : ℚ)
    (rd : ℕ → ℕ → ℚ × ℚ) :
    (singleRun auto start step stop npts mr0 rd).current
      = (invalidate (decide (5 ≤ (singleRun auto start step stop npts mr0 rd).flagCnt))
          (singleRun auto start step stop npts mr0 rd).flagIdx
          (stepChunk npts (fun j p => (rd j p).1) 0 (numSteps start step stop))).map
            overflowFilter := by
  show (invalidate _ _ (runLoop auto start step npts rd 0 (numSteps start step stop)
    (initState mr0)).curr).map overflowFilter = _
  rw [runLoop_curr]
  rfl

theorem singleRun_time (auto : Bool) (start step stop : ℚ) (npts : ℕ) (mr0 : ℚ)
    (rd : ℕ → ℕ → ℚ × ℚ) :
    (singleRun auto start step stop npts mr0 rd).time
      = invalidate (decide (5 ≤ (singleRun auto start step stop npts mr0 rd).flagCnt))
          (singleRun auto start step stop npts mr0 rd).flagIdx
          (stepChunk npts (fun j p => (rd j p).2) 0 (numSteps start step stop)) := by
  show invalidate _ _ (runLoop auto start step npts rd 0 (numSteps start step stop)
    (initState mr0)).tim = _
  rw [runLoop_tim]
  rfl

theorem singleRun_voltage (auto : Bool) (start step stop : ℚ) (npts : ℕ) (mr0 : ℚ)
    (rd : ℕ → ℕ → ℚ × ℚ) :
    (singleRun auto start step stop npts mr0 rd).voltage
      = invalidate (decide (5 ≤ (singleRun auto start step stop npts mr0 rd).flagCnt))
          (singleRun auto start step stop npts mr0 rd).flagIdx
          (stepChunk npts (fun j _ => start + (j : ℚ) * step) 0 (numSteps start step stop)) := by
  show invalidate _ _ (runLoop auto start step npts rd 0 (numSteps start step stop)
    (initState mr0)).volt = _
  rw [runLoop_volt]
  rfl

/- ------------------------------------------------------------------ -/
/- Lemmas: runs without sticky-fault hits                              -/
/- ------------------------------------------------------------------ -/

theorem processStep_cnt_idx_no_band (start step : ℚ) (npts : ℕ) (rd : ℕ → ℕ → ℚ × ℚ)
    (st : RunState) (k : ℕ) (hnp : 0 < npts) (h : ¬ inBand |(rd k 0).1|) :
    (processStep false start step npts rd st k).cnt = st.cnt ∧
    (processStep false start step npts rd st k).idx = st.idx := by
  have habs : ((List.range npts).map fun p => (rd k p).1).headD 0 = (rd k 0).1 :=
    headD_map_range npts _ hnp
  simp only [processStep, Bool.false_eq_true, if_false, habs]
  constructor
  · show (if _ ∧ bandLo ≤ |(rd k 0).1| ∧ |(rd k 0).1| ≤ bandHi then st.cnt + 1 else st.cnt)
      = st.cnt
    rw [if_neg fun hc => h ⟨hc.2.1, hc.2.2⟩]
  · show (if _ ∧ bandLo ≤ |(rd k 0).1| ∧ |(rd k 0).1| ≤ bandHi then st.idx ++ _ else st.idx)
      = st.idx
    rw [if_neg fun hc => h ⟨hc.2.1, hc.2.2⟩]

theorem runLoop_cnt_idx_no_band (start step : ℚ) (npts : ℕ) (rd : ℕ → ℕ → ℚ × ℚ)
    (hnp : 0 < npts) :
    ∀ (f k : ℕ) (st : RunState),
      (∀ j, k ≤ j → j < k + f → ¬ inBand |(rd j 0).1|) →
      (runLoop false start step npts rd k f st).cnt = st.cnt ∧
      (runLoop false start step npts rd k f st).idx = st.idx := by
  intro f
  induction f with
  | zero => intro k st _; exact ⟨rfl, rfl⟩
  | succ f ih =>
      intro k st hnb
      rw [runLoop_succ]
      obtain ⟨h1, h2⟩ := ih (k + 1) (processStep false start step npts rd st k)
        (fun j hj1 hj2 => hnb j (by omega) (by omega))
      obtain ⟨h3, h4⟩ := processStep_cnt_idx_no_band start step npts rd st k hnp
        (hnb k (le_refl k) (by omega))
      exact ⟨h1.trans h3, h2.trans h4⟩

theorem singleRun_no_band (start step stop : ℚ) (npts : ℕ) (mr0 : ℚ)
    (rd : ℕ → ℕ → ℚ × ℚ) (hnp : 0 < npts)
    (hnb : ∀ j, j < numSteps start step stop → ¬ inBand |(rd j 0).1|) :
    (singleRun false start step stop npts mr0 rd).flagCnt = 0 ∧
    (singleRun false start step stop npts mr0 rd).flagIdx = [] := by
  rw [singleRun_flagCnt, singleRun_flagIdx]
  exact runLoop_cnt_idx_no_band start step npts rd hnp (numSteps start step stop) 0
    (initState mr0) (fun j hj1 hj2 => hnb j (by omega))

theorem singleRun_voltage_quiet (auto : Bool) (start step stop : ℚ) (npts : ℕ) (mr0 : ℚ)
    (rd : ℕ → ℕ → ℚ × ℚ)
    (hcnt : (singleRun auto start step stop npts mr0 rd).flagCnt < 5) :
    (singleRun auto start step stop npts mr0 rd).voltage
      = (stepChunk npts (fun j _ => start + (j : ℚ) * step) 0 (numSteps start step stop)).map
          some := by
  rw [singleRun_voltage]
  have hdec : decide (5 ≤ (singleRun auto start step stop npts mr0 rd).flagCnt) = false :=
    decide_eq_false (by omega)
  rw [hdec, invalidate_false]

theorem singleRun_time_quiet (auto : Bool) (start step stop : ℚ) (npts : ℕ) (mr0 : ℚ)
    (rd : ℕ → ℕ → ℚ × ℚ)
    (hcnt : (singleRun auto start step stop npts mr0 rd).flagCnt < 5) :
    (singleRun auto start step stop npts mr0 rd).time
      = (stepChunk npts (fun j p => (rd j p).2) 0 (numSteps start step stop)).map some := by
  rw [singleRun_time]
  have hdec : decide (5 ≤ (singleRun auto start step stop npts mr0 rd).flagCnt) = false :=
    decide_eq_false (by omega)
  rw [hdec, invalidate_false]

/- ------------------------------------------------------------------ -/
/- Lemmas: the voltage ramp                                            -/
/- ------------------------------------------------------------------ -/

theorem numSteps_lt (start step stop : ℚ) (k : ℕ) (hk : k < numSteps start step stop) :
    (k : ℚ) < (stop - start) / step := by
  unfold numSteps at hk
  have h1 : (k : ℤ) < ⌈(stop - start) / step⌉ := Int.lt_toNat.mp hk
  have h2 : ((k : ℤ) : ℚ) ≤ ((⌈(stop - start) / step⌉ : ℤ) : ℚ) - 1 := by
    have : (k : ℤ) ≤ ⌈(stop - start) / step⌉ - 1 := by omega
    push_cast
    exact_mod_cast this
  have h3 := Int.ceil_lt_add_one ((stop - start) / step)
  push_cast at h2 h3 ⊢
  linarith

theorem sample_lt_stop (start step stop : ℚ) (k : ℕ) (hk : k < numSteps start step stop) :
    (0 < step → start + (k : ℚ) * step < stop) ∧
    (step < 0 → stop < start + (k : ℚ) * step) := by
  have hd := numSteps_lt start step stop k hk
  constructor
  · intro hs
    have := (lt_div_iff₀ hs).mp hd
    linarith
  · intro hs
    have := (lt_div_iff_of_neg hs).mp hd
    linarith

/- ------------------------------------------------------------------ -/
/- Claim C3: sampled progression, sample count, half-open interval     -/
/- ------------------------------------------------------------------ -/

theorem concrete_ramp_voltage :
    (singleRun false 10 (-2) (-10) 1 2e-2 fun _ _ => ((0 : ℚ), (0 : ℚ))).voltage
      = [some 10, some 8, some 6, some 4, some 2, some 0,
         some (-2), some (-4), some (-6), some (-8)] := by
  have hnb : ∀ j, j < numSteps 10 (-2) (-10) →
      ¬ inBand |((fun (_ _ : ℕ) => ((0 : ℚ), (0 : ℚ))) j 0).1| := by
    intro j _ hband
    have := hband.1
    norm_num [bandLo] at this
  obtain ⟨hcnt, _⟩ := singleRun_no_band 10 (-2) (-10) 1 2e-2
    (fun _ _ => ((0 : ℚ), (0 : ℚ))) (by norm_num) hnb
  have hq := singleRun_voltage_quiet false 10 (-2) (-10) 1 2e-2
    (fun _ _ => ((0 : ℚ), (0 : ℚ))) (by rw [hcnt]; norm_num)
  rw [hq]
  have hns : numSteps 10 (-2) (-10) = 10 := by
    have h : ((-10 : ℚ) - 10) / (-2) = ((10 : ℤ) : ℚ) := by norm_num
    unfold numSteps
    rw [h, Int.ceil_intCast]
    rfl
  rw [hns]
  simp [stepChunk, List.range']
  norm_num

/-- Claim C3: for validated sweep parameters with a nonzero step, a
completed sweep samples the arithmetic progression `start, start+step, …`
(each point `npts` times, in order); the record holds
`⌈(stop-start)/step⌉ * npts` samples; every voltage entry is either a NaN
marker or the progression value of its step; every sampled point lies
strictly before `stop` (half-open: `stop` is never sampled); and
`max_v=10, step_v=2, npts=1, start_from=max` yields the voltage sequence
`[10, 8, 6, 4, 2, 0, -2, -4, -6, -8]`. -/
theorem sweep_samples_progression (max_v step_v : ℚ) (npts : ℕ) (fromMax : Bool)
    (mr0 : ℚ) (rd : ℕ → ℕ → ℚ × ℚ) (start step stop : ℚ)
    (hval : set_parameters_ok max_v step_v 1 = true) (hsv : step_v ≠ 0) (hnp : 0 < npts)
    (hend : (start, step, stop) = sweepEndpoints max_v step_v fromMax) :
    ((((singleRun false start step stop npts mr0 rd).voltage.length : ℕ) : ℤ)
        = ⌈(stop - start) / step⌉ * npts)
    ∧ (∀ i : ℕ, (singleRun false start step stop npts mr0 rd).voltage[i]? = some none ∨
        (singleRun false start step stop npts mr0 rd).voltage[i]? = none ∨
        (singleRun false start step stop npts mr0 rd).voltage[i]?
          = some (some (start + ((i / npts : ℕ) : ℚ) * step)))
    ∧ ((singleRun false start step stop npts mr0 rd).flagCnt < 5 →
        (singleRun false start step stop npts mr0 rd).voltage
          = ((List.range (numSteps start step stop)).flatMap
              fun k => (List.range npts).map fun _ => start + (k : ℚ) * step).map some)
    ∧ (∀ k, k < numSteps start step stop →
        (0 < step → start + (k : ℚ) * step < stop) ∧
        (step < 0 → stop < start + (k : ℚ) * step))
    ∧ (singleRun false 10 (-2) (-10) 1 2e-2 fun _ _ => ((0 : ℚ), (0 : ℚ))).voltage
        = [some 10, some 8, some 6, some 4, some 2, some 0,
           some (-2), some (-4), some (-6), some (-8)] := by
  simp only [set_parameters_ok] at hval
  split_ifs at hval with h1 h2 h3
  · clear hval
    have hnn : 0 ≤ (stop - start) / step := by
      cases fromMax with
      | true =>
          simp only [sweepEndpoints, if_pos, Prod.mk.injEq] at hend
          obtain ⟨e1, e2, e3⟩ := hend
          rw [e1, e2, e3]
          rw [show -max_v - max_v = -(2 * max_v) by ring, neg_div_neg_eq]
          exact div_nonneg (by linarith [h3.1, h3.2]) h3.1
      | false =>
          simp only [sweepEndpoints, Bool.false_eq_true, if_false, Prod.mk.injEq] at hend
          obtain ⟨e1, e2, e3⟩ := hend
          rw [e1, e2, e3]
          rw [show max_v - -max_v = 2 * max_v by ring]
          exact div_nonneg (by linarith [h3.1, h3.2]) h3.1
    have hcast : ((numSteps start step stop : ℕ) : ℤ) = ⌈(stop - start) / step⌉ := by
      unfold numSteps
      exact Int.toNat_of_nonneg (Int.ceil_nonneg hnn)
    refine ⟨?_, ?_, ?_, ?_, concrete_ramp_voltage⟩
    · rw [singleRun_voltage, invalidate_length, stepChunk_length]
      push_cast [← hcast]
      ring
    · intro i
      rw [singleRun_voltage]
      rcases invalidate_get_cases (decide (5 ≤ (singleRun false start step stop npts mr0
          rd).flagCnt)) ((singleRun false start step stop npts mr0 rd).flagIdx)
          (stepChunk npts (fun j _ => start + (j : ℚ) * step) 0 (numSteps start step stop)) i
        with hc | hc
      · rw [hc]
        by_cases hlen : i < numSteps start step stop * npts
        · right; right
          rw [List.getElem?_map,
            stepChunk_getElem npts _ 0 (numSteps start step stop) i hnp hlen]
          simp
        · right; left
          rw [List.getElem?_map, List.getElem?_eq_none]
          · rfl
          · rw [stepChunk_length]; omega
      · exact Or.inl hc.1
    · intro hcnt
      rw [singleRun_voltage_quiet false start step stop npts mr0 rd hcnt]
      simp only [stepChunk, List.range_eq_range']
    · intro k hk
      exact sample_lt_stop start step stop k hk

/-- Witness for the C3 theorem at `max_v = 10`, `step_v = 2`, `npts = 1`,
`start_from = max`. -/
theorem sweep_samples_progression_witness :
    (set_parameters_ok 10 2 1 = true ∧ (2 : ℚ) ≠ 0 ∧ 0 < 1 ∧
      (((10 : ℚ), (-2 : ℚ), (-10 : ℚ))
        = sweepEndpoints 10 2 true)) ∧
    (((((singleRun false 10 (-2) (-10) 1 2e-2
            fun _ _ => ((0 : ℚ), (0 : ℚ))).voltage.length : ℕ) : ℤ)
        = ⌈((-10 : ℚ) - 10) / (-2)⌉ * 1)
    ∧ (∀ i : ℕ, (singleRun false 10 (-2) (-10) 1 2e-2
            fun _ _ => ((0 : ℚ), (0 : ℚ))).voltage[i]? = some none ∨
        (singleRun false 10 (-2) (-10) 1 2e-2
            fun _ _ => ((0 : ℚ), (0 : ℚ))).voltage[i]? = none ∨
        (singleRun false 10 (-2) (-10) 1 2e-2
            fun _ _ => ((0 : ℚ), (0 : ℚ))).voltage[i]?
          = some (some (10 + ((i / 1 : ℕ) : ℚ) * (-2))))
    ∧ ((singleRun false 10 (-2) (-10) 1 2e-2
            fun _ _ => ((0 : ℚ), (0 : ℚ))).flagCnt < 5 →
        (singleRun false 10 (-2) (-10) 1 2e-2
            fun _ _ => ((0 : ℚ), (0 : ℚ))).voltage
          = ((List.range (numSteps 10 (-2) (-10))).flatMap
              fun k => (List.range 1).map fun _ => 10 + (k : ℚ) * (-2)).map some)
    ∧ (∀ k, k < numSteps 10 (-2) (-10) →
        (0 < (-2 : ℚ) → 10 + (k : ℚ) * (-2) < -10) ∧
        ((-2 : ℚ) < 0 → -10 < 10 + (k : ℚ) * (-2)))
    ∧ (singleRun false 10 (-2) (-10) 1 2e-2 fun _ _ => ((0 : ℚ), (0 : ℚ))).voltage
        = [some 10, some 8, some 6, some 4, some 2, some 0,
           some (-2), some (-4), some (-6), some (-8)]) :=
  ⟨⟨by simp only [set_parameters_ok]; norm_num, by norm_num, by norm_num,
      by simp [sweepEndpoints]⟩,
    sweep_samples_progression 10 2 1 true 2e-2 (fun _ _ => ((0 : ℚ), (0 : ℚ)))
      10 (-2) (-10) (by simp only [set_parameters_ok]; norm_num) (by norm_num)
      (by norm_num) (by simp [sweepEndpoints])⟩

/- ------------------------------------------------------------------ -/
/- Claim C5: overflow post-filter                                      -/
/- ------------------------------------------------------------------ -/

theorem bankersRound_intCast (n : ℤ) : bankersRound (n : ℚ) = n := by
  unfold bankersRound
  rw [Int.fract_intCast, Int.floor_intCast]
  norm_num

theorem option_map_some {α β : Type} (f : α → β) (x : α) :
    Option.map f (some x) = some (f x) := rfl

theorem map_some_get_ne (l : List ℚ) (i : ℕ) : (l.map some)[i]? ≠ some none := by
  rw [List.getElem?_map]
  cases l[i]? <;> simp

theorem singleRun_current_elt (auto : Bool) (start step stop : ℚ) (npts : ℕ) (mr0 : ℚ)
    (rd : ℕ → ℕ → ℚ × ℚ) (i : ℕ) (hnp : 0 < npts)
    (hi : i < numSteps start step stop * npts) :
    (1 < (rd (i / npts) (i % npts)).1 →
      (singleRun auto start step stop npts mr0 rd).current[i]? = some none) ∧
    (((singleRun auto start step stop npts mr0 rd).flagCnt < 5 ∨
        i ∉ (singleRun auto start step stop npts mr0 rd).flagIdx) →
      (rd (i / npts) (i % npts)).1 ≤ 1 →
      (singleRun auto start step stop npts mr0 rd).current[i]?
        = some (some ((rd (i / npts) (i % npts)).1))) := by
  have hchunk : (stepChunk npts (fun j p => (rd j p).1) 0 (numSteps start step stop))[i]?
      = some ((rd (i / npts) (i % npts)).1) := by
    rw [stepChunk_getElem npts _ 0 (numSteps start step stop) i hnp hi]
    rw [Nat.zero_add]
  constructor
  · intro hc
    rw [singleRun_current, List.getElem?_map]
    rcases invalidate_get_cases (decide (5 ≤ (singleRun auto start step stop npts mr0
        rd).flagCnt)) ((singleRun auto start step stop npts mr0 rd).flagIdx)
        (stepChunk npts (fun j p => (rd j p).1) 0 (numSteps start step stop)) i with h | h
    · rw [h, List.getElem?_map, hchunk, option_map_some, option_map_some,
        overflowFilter_some, if_pos hc]
    · rw [h.1, option_map_some, overflowFilter_none]
  · intro hinv hc
    rw [singleRun_current, List.getElem?_map]
    have hbase : (invalidate (decide (5 ≤ (singleRun auto start step stop npts mr0
        rd).flagCnt)) ((singleRun auto start step stop npts mr0 rd).flagIdx)
        (stepChunk npts (fun j p => (rd j p).1) 0 (numSteps start step stop)))[i]?
        = some (some ((rd (i / npts) (i % npts)).1)) := by
      rcases hinv with h5 | hmem
      · rw [decide_eq_false (by omega), invalidate_false, List.getElem?_map, hchunk]
        rfl
      · rw [invalidate_get_not_mem _ _ _ _ hmem, List.getElem?_map, hchunk]
        rfl
    rw [hbase, option_map_some, overflowFilter_some, if_neg (by linarith)]

/-- Claim C5, counterexample: the post-filter is `current[current > 1]`
(line 537), a signed comparison: a one-step sweep reading `-2` (absolute
value greater than 1) keeps the sample `-2` in the returned current
array instead of overwriting it with NaN as the claim requires. -/
theorem overflow_filter_cex :
    (singleRun false 1 1 2 1 2e-3 fun _ _ => ((-2 : ℚ), (0 : ℚ))).current = [some (-2)] ∧
    1 < |(-2 : ℚ)| := by
  have hns : numSteps 1 1 2 = 1 := by
    unfold numSteps
    rw [show ((2 : ℚ) - 1) / 1 = ((1 : ℤ) : ℚ) by norm_num, Int.ceil_intCast]
    rfl
  have hnb : ∀ j, j < numSteps 1 1 2 →
      ¬ inBand |((fun (_ _ : ℕ) => ((-2 : ℚ), (0 : ℚ))) j 0).1| := by
    intro j _ hband
    have := hband.2
    norm_num [bandHi] at this
  obtain ⟨hcnt, _⟩ := singleRun_no_band 1 1 2 1 2e-3
    (fun _ _ => ((-2 : ℚ), (0 : ℚ))) (by norm_num) hnb
  have hlen : (singleRun false 1 1 2 1 2e-3 fun _ _ => ((-2 : ℚ), (0 : ℚ))).current.length
      = 1 := by
    rw [singleRun_current, List.length_map, invalidate_length, stepChunk_length, hns]
  constructor
  · apply List.ext_getElem?
    intro i
    match i with
    | 0 =>
        have h := (singleRun_current_elt false 1 1 2 1 2e-3
          (fun _ _ => ((-2 : ℚ), (0 : ℚ))) 0 (by norm_num) (by rw [hns]; norm_num)).2
          (Or.inl (by rw [hcnt]; norm_num)) (by norm_num)
        rw [h]
        rfl
    | i + 1 =>
        rw [List.getElem?_eq_none (by rw [hlen]; omega)]
        rfl
  · norm_num

/-- Claim C5 (amended): after the full ramp, every current sample whose
signed value exceeds 1 is overwritten with NaN in the returned current
array, independently of the flagged-index mechanism; every sample with
value at most 1 that was not invalidated by the flagged-index mechanism
is returned unchanged.  (Samples below `-1` are not treated as overflow:
the filter is signed, not absolute.) -/
theorem overflow_postfilter_signed (auto : Bool) (start step stop : ℚ) (npts : ℕ)
    (mr0 : ℚ) (rd : ℕ → ℕ → ℚ × ℚ) (i : ℕ) (hnp : 0 < npts)
    (hi : i < numSteps start step stop * npts) :
    (1 < (rd (i / npts) (i % npts)).1 →
      (singleRun auto start step stop npts mr0 rd).current[i]? = some none) ∧
    (((singleRun auto start step stop npts mr0 rd).flagCnt < 5 ∨
        i ∉ (singleRun auto start step stop npts mr0 rd).flagIdx) →
      (rd (i / npts) (i % npts)).1 ≤ 1 →
      (singleRun auto start step stop npts mr0 rd).current[i]?
        = some (some ((rd (i / npts) (i % npts)).1))) :=
  singleRun_current_elt auto start step stop npts mr0 rd i hnp hi

/-- Witness for the amended C5 theorem: one-step sweep reading `2`,
which exceeds 1 and is overwritten with NaN. -/
theorem overflow_postfilter_signed_witness :
    (0 < 1 ∧ 0 < numSteps 1 1 2 * 1) ∧
    ((1 < ((fun (_ _ : ℕ) => ((2 : ℚ), (0 : ℚ))) (0 / 1) (0 % 1)).1 →
      (singleRun false 1 1 2 1 2e-3 fun _ _ => ((2 : ℚ), (0 : ℚ))).current[0]? = some none) ∧
    (((singleRun false 1 1 2 1 2e-3 fun _ _ => ((2 : ℚ), (0 : ℚ))).flagCnt < 5 ∨
        0 ∉ (singleRun false 1 1 2 1 2e-3 fun _ _ => ((2 : ℚ), (0 : ℚ))).flagIdx) →
      ((fun (_ _ : ℕ) => ((2 : ℚ), (0 : ℚ))) (0 / 1) (0 % 1)).1 ≤ 1 →
      (singleRun false 1 1 2 1 2e-3 fun _ _ => ((2 : ℚ), (0 : ℚ))).current[0]?
        = some (some (((fun (_ _ : ℕ) => ((2 : ℚ), (0 : ℚ))) (0 / 1) (0 % 1)).1)))) :=
  ⟨⟨by norm_num, by
      have hns : numSteps 1 1 2 = 1 := by
        unfold numSteps
        rw [show ((2 : ℚ) - 1) / 1 = ((1 : ℤ) : ℚ) by norm_num, Int.ceil_intCast]
        rfl
      rw [hns]
      norm_num⟩,
    overflow_postfilter_signed false 1 1 2 1 2e-3 (fun _ _ => ((2 : ℚ), (0 : ℚ))) 0
      (by norm_num)
      (by
        have hns : numSteps 1 1 2 = 1 := by
          unfold numSteps
          rw [show ((2 : ℚ) - 1) / 1 = ((1 : ℤ) : ℚ) by norm_num, Int.ceil_intCast]
          rfl
        rw [hns]
        norm_num)⟩

/- ------------------------------------------------------------------ -/
/- Claim C6: transition side effect (code bug: flagging commented out) -/
/- ------------------------------------------------------------------ -/

/-- The range at the fragile small value after the first step of a sweep
that starts at range `2e-8` and reads `1e-10`: the decision narrows to
the computed ceiling `2e-10` (the 200 pA range named in the comments at
lines 433-434 and 494-496). -/
theorem narrowing_mr_eval :
    (runLoop false 0 1 1 (fun _ _ => ((1e-10 : ℚ), (0 : ℚ))) 0 1 (initState 2e-8)).mr
      = 2e-10 := by
  rw [runLoop_succ, runLoop_zero]
  have habs : ((List.range 1).map fun p =>
      ((fun (_ _ : ℕ) => ((1e-10 : ℚ), (0 : ℚ))) 0 p).1).headD 0 = 1e-10 :=
    headD_map_range 1 _ (by norm_num)
  simp only [processStep, initState, Bool.false_eq_true, if_false, habs]
  rw [show (2e-8 : ℚ) * 10 ^ 10 = ((200 : ℤ) : ℚ) by norm_num, bankersRound_intCast]
  rw [if_neg (by norm_num)]
  rw [show |(1e-10 : ℚ)| = 1e-10 by norm_num]
  simp only [rangeDecision]
  rw [rangeFloorCeil_low (by norm_num) (by norm_num)]
  norm_num

/-- Claim C6, failing input: a sweep with initial range `2e-8` and
constant readings `1e-10`.  At the first step the decision narrows the
range to the small value `2e-10` -- the very transition the comments at
lines 433-435 and 494-496 say produces two or three bad points that
"need to remove" -- yet the flagging code (`flag200pAidx`, lines 435 and
496) is commented out, so no sample is flagged and nothing is
invalidated: the flag list stays empty, the counter stays zero and no
current/time/voltage entry is overwritten with NaN.  The claim (and the
code comments) say the next few samples should be flagged and
invalidated. -/
theorem narrowing_no_flagging :
    (runLoop false 0 1 1 (fun _ _ => ((1e-10 : ℚ), (0 : ℚ))) 0 1 (initState 2e-8)).mr
        = 2e-10
    ∧ (singleRun false 0 1 4 1 2e-8 fun _ _ => ((1e-10 : ℚ), (0 : ℚ))).flagIdx = []
    ∧ (singleRun false 0 1 4 1 2e-8 fun _ _ => ((1e-10 : ℚ), (0 : ℚ))).flagCnt = 0
    ∧ (∀ i : ℕ,
        (singleRun false 0 1 4 1 2e-8 fun _ _ => ((1e-10 : ℚ), (0 : ℚ))).current[i]?
          ≠ some none)
    ∧ (∀ i : ℕ,
        (singleRun false 0 1 4 1 2e-8 fun _ _ => ((1e-10 : ℚ), (0 : ℚ))).voltage[i]?
          ≠ some none)
    ∧ (∀ i : ℕ,
        (singleRun false 0 1 4 1 2e-8 fun _ _ => ((1e-10 : ℚ), (0 : ℚ))).time[i]?
          ≠ some none) := by
  have hns : numSteps 0 1 4 = 4 := by
    unfold numSteps
    rw [show ((4 : ℚ) - 0) / 1 = ((4 : ℤ) : ℚ) by norm_num, Int.ceil_intCast]
    rfl
  have hnb : ∀ j, j < numSteps 0 1 4 →
      ¬ inBand |((fun (_ _ : ℕ) => ((1e-10 : ℚ), (0 : ℚ))) j 0).1| := by
    intro j _ hband
    have h1 : |((fun (_ _ : ℕ) => ((1e-10 : ℚ), (0 : ℚ))) j 0).1| = 1e-10 := by norm_num
    rw [h1] at hband
    have := hband.1
    norm_num [bandLo] at this
  obtain ⟨hcnt, hidx⟩ := singleRun_no_band 0 1 4 1 2e-8
    (fun _ _ => ((1e-10 : ℚ), (0 : ℚ))) (by norm_num) hnb
  refine ⟨narrowing_mr_eval, hidx, hcnt, ?_, ?_, ?_⟩
  · intro i
    by_cases hi : i < numSteps 0 1 4 * 1
    · have h := (singleRun_current_elt false 0 1 4 1 2e-8
        (fun _ _ => ((1e-10 : ℚ), (0 : ℚ))) i (by norm_num) hi).2
        (Or.inl (by rw [hcnt]; norm_num)) (by norm_num)
      rw [h]
      simp
    · rw [List.getElem?_eq_none]
      · simp
      · rw [singleRun_current, List.length_map, invalidate_length, stepChunk_length]
        omega
  · intro i
    rw [singleRun_voltage_quiet false 0 1 4 1 2e-8 _ (by rw [hcnt]; norm_num)]
    exact map_some_get_ne _ i
  · intro i
    rw [singleRun_time_quiet false 0 1 4 1 2e-8 _ (by rw [hcnt]; norm_num)]
    exact map_some_get_ne _ i

/- ------------------------------------------------------------------ -/
/- Claim C2: sticky-fault guard                                        -/
/- ------------------------------------------------------------------ -/

theorem rangeDecision_band (q : ℚ) (h1 : bandLo ≤ q) (h2 : q ≤ bandHi) :
    rangeDecision q 2e-10 = 2e-10 := by
  have hlow : (2e-11 : ℚ) < q := by
    have := h1
    norm_num [bandLo] at this ⊢
    linarith
  have hhigh : q < (2e-10 : ℚ) := by
    have := h2
    norm_num [bandHi] at this ⊢
    linarith
  simp only [rangeDecision]
  rw [rangeFloorCeil_low hlow hhigh]
  norm_num

theorem bankersRound_2em10 : bankersRound ((2e-10 : ℚ) * 10 ^ 10) = 2 := by
  rw [show (2e-10 : ℚ) * 10 ^ 10 = ((2 : ℤ) : ℚ) by norm_num, bankersRound_intCast]

theorem processStep_band (start step : ℚ) (rd : ℕ → ℕ → ℚ × ℚ) (st : RunState) (k : ℕ)
    (hstep : step ≠ 0) (hmr : st.mr = 2e-10) (hband : inBand |(rd k 0).1|) :
    processStep false start step 1 rd st k =
      { mr := if 5 ≤ st.cnt + 1 then 2e-9 else 2e-10,
        cnt := st.cnt + 1,
        idx := st.idx ++ [k],
        curr := st.curr ++ [(rd k 0).1],
        tim := st.tim ++ [(rd k 0).2],
        volt := st.volt ++ [start + (k : ℚ) * step] } := by
  have habs : ((List.range 1).map fun p => (rd k p).1).headD 0 = (rd k 0).1 :=
    headD_map_range 1 _ (by norm_num)
  have hfrag : bankersRound (st.mr * 10 ^ 10) = 2 := by rw [hmr]; exact bankersRound_2em10
  have hhit : bankersRound (st.mr * 10 ^ 10) = 2 ∧
      bandLo ≤ |(rd k 0).1| ∧ |(rd k 0).1| ≤ bandHi := ⟨hfrag, hband.1, hband.2⟩
  have hc1 : (List.range 1).map (fun p => (rd k p).1) = [(rd k 0).1] := rfl
  have hc2 : (List.range 1).map (fun p => (rd k p).2) = [(rd k 0).2] := rfl
  have hc3 : (List.range 1).map (fun _ : ℕ => start + (k : ℚ) * step)
      = [start + (k : ℚ) * step] := rfl
  simp only [processStep, Bool.false_eq_true, if_false, hc1, hc2, hc3, List.headD_cons]
  simp only [if_pos hhit, RunState.mk.injEq]
  refine ⟨?_, trivial, ?_, trivial, trivial, trivial⟩
  · by_cases h5 : 5 ≤ st.cnt + 1
    · rw [if_pos ⟨hfrag, h5⟩, if_pos h5]
    · rw [if_neg fun hcon => h5 hcon.2, if_neg h5, hmr, rangeDecision_band _ hband.1 hband.2]
  · rw [flagIndex_eq start step k hstep]

theorem sticky_five (start step : ℚ) (rd : ℕ → ℕ → ℚ × ℚ) (hstep : step ≠ 0)
    (hband : ∀ k, k < 5 → inBand |(rd k 0).1|) :
    runLoop false start step 1 rd 0 5 (initState 2e-10)
      = { mr := 2e-9, cnt := 5, idx := [0, 1, 2, 3, 4],
          curr := [(rd 0 0).1, (rd 1 0).1, (rd 2 0).1, (rd 3 0).1, (rd 4 0).1],
          tim := [(rd 0 0).2, (rd 1 0).2, (rd 2 0).2, (rd 3 0).2, (rd 4 0).2],
          volt := [start + (0 : ℚ) * step, start + (1 : ℚ) * step, start + (2 : ℚ) * step,
                   start + (3 : ℚ) * step, start + (4 : ℚ) * step] } := by
  have s1 : processStep false start step 1 rd (initState 2e-10) 0
      = { mr := 2e-10, cnt := 1, idx := [0], curr := [(rd 0 0).1], tim := [(rd 0 0).2],
          volt := [start + (0 : ℚ) * step] } := by
    rw [processStep_band start step rd (initState 2e-10) 0 hstep rfl (hband 0 (by norm_num))]
    norm_num [initState]
  have s2 : processStep false start step 1 rd
      { mr := 2e-10, cnt := 1, idx := [0], curr := [(rd 0 0).1], tim := [(rd 0 0).2],
        volt := [start + (0 : ℚ) * step] } 1
      = { mr := 2e-10, cnt := 2, idx := [0, 1], curr := [(rd 0 0).1, (rd 1 0).1],
          tim := [(rd 0 0).2, (rd 1 0).2],
          volt := [start + (0 : ℚ) * step, start + (1 : ℚ) * step] } := by
    rw [processStep_band start step rd _ 1 hstep rfl (hband 1 (by norm_num))]
    norm_num
  have s3 : processStep false start step 1 rd
      { mr := 2e-10, cnt := 2, idx := [0, 1], curr := [(rd 0 0).1, (rd 1 0).1],
        tim := [(rd 0 0).2, (rd 1 0).2],
        volt := [start + (0 : ℚ) * step, start + (1 : ℚ) * step] } 2
      = { mr := 2e-10, cnt := 3, idx := [0, 1, 2],
          curr := [(rd 0 0).1, (rd 1 0).1, (rd 2 0).1],
          tim := [(rd 0 0).2, (rd 1 0).2, (rd 2 0).2],
          volt := [start + (0 : ℚ) * step, start + (1 : ℚ) * step,
                   start + (2 : ℚ) * step] } := by
    rw [processStep_band start step rd _ 2 hstep rfl (hband 2 (by norm_num))]
    norm_num
  have s4 : processStep false start step 1 rd
      { mr := 2e-10, cnt := 3, idx := [0, 1, 2],
        curr := [(rd 0 0).1, (rd 1 0).1, (rd 2 0).1],
        tim := [(rd 0 0).2, (rd 1 0).2, (rd 2 0).2],
        volt := [start + (0 : ℚ) * step, start + (1 : ℚ) * step,
                 start + (2 : ℚ) * step] } 3
      = { mr := 2e-10, cnt := 4, idx := [0, 1, 2, 3],
          curr := [(rd 0 0).1, (rd 1 0).1, (rd 2 0).1, (rd 3 0).1],
          tim := [(rd 0 0).2, (rd 1 0).2, (rd 2 0).2, (rd 3 0).2],
          volt := [start + (0 : ℚ) * step, start + (1 : ℚ) * step, start + (2 : ℚ) * step,
                   start + (3 : ℚ) * step] } := by
    rw [processStep_band start step rd _ 3 hstep rfl (hband 3 (by norm_num))]
    norm_num
  have s5 : processStep false start step 1 rd
      { mr := 2e-10, cnt := 4, idx := [0, 1, 2, 3],
        curr := [(rd 0 0).1, (rd 1 0).1, (rd 2 0).1, (rd 3 0).1],
        tim := [(rd 0 0).2, (rd 1 0).2, (rd 2 0).2, (rd 3 0).2],
        volt := [start + (0 : ℚ) * step, start + (1 : ℚ) * step, start + (2 : ℚ) * step,
                 start + (3 : ℚ) * step] } 4
      = { mr := 2e-9, cnt := 5, idx := [0, 1, 2, 3, 4],
          curr := [(rd 0 0).1, (rd 1 0).1, (rd 2 0).1, (rd 3 0).1, (rd 4 0).1],
          tim := [(rd 0 0).2, (rd 1 0).2, (rd 2 0).2, (rd 3 0).2, (rd 4 0).2],
          volt := [start + (0 : ℚ) * step, start + (1 : ℚ) * step, start + (2 : ℚ) * step,
                   start + (3 : ℚ) * step, start + (4 : ℚ) * step] } := by
    rw [processStep_band start step rd _ 4 hstep rfl (hband 4 (by norm_num))]
    norm_num
  show runLoop false start step 1 rd 0 (4 + 1) (initState 2e-10) = _
  rw [runLoop_succ, s1]
  show runLoop false start step 1 rd 1 (3 + 1) _ = _
  rw [runLoop_succ, s2]
  show runLoop false start step 1 rd 2 (2 + 1) _ = _
  rw [runLoop_succ, s3]
  show runLoop false start step 1 rd 3 (1 + 1) _ = _
  rw [runLoop_succ, s4]
  show runLoop false start step 1 rd 4 (0 + 1) _ = _
  rw [runLoop_succ, s5, runLoop_zero]

theorem sticky_run_core (start step stop : ℚ) (rd : ℕ → ℕ → ℚ × ℚ)
    (hstep : step ≠ 0) (hn : 5 ≤ numSteps start step stop)
    (hband : ∀ k, k < 5 → inBand |(rd k 0).1|)
    (hout : ∀ k, 5 ≤ k → ¬ inBand |(rd k 0).1|) :
    (runLoop false start step 1 rd 0 5 (initState 2e-10)).mr = 2e-9
    ∧ (singleRun false start step stop 1 2e-10 rd).flagCnt = 5
    ∧ (singleRun false start step stop 1 2e-10 rd).flagIdx = [0, 1, 2, 3, 4]
    ∧ (∀ i : ℕ,
        (singleRun false start step stop 1 2e-10 rd).voltage[i]? = some none ↔ i < 5)
    ∧ (∀ i : ℕ,
        (singleRun false start step stop 1 2e-10 rd).time[i]? = some none ↔ i < 5)
    ∧ (∀ i : ℕ, i < 5 →
        (singleRun false start step stop 1 2e-10 rd).current[i]? = some none) := by
  obtain ⟨m, hm⟩ : ∃ m, numSteps start step stop = 5 + m :=
    ⟨numSteps start step stop - 5, by omega⟩
  have hfive := sticky_five start step rd hstep hband
  have hsplit : runLoop false start step 1 rd 0 (numSteps start step stop) (initState 2e-10)
      = runLoop false start step 1 rd 5 m
          (runLoop false start step 1 rd 0 5 (initState 2e-10)) := by
    rw [hm, runLoop_add]
  have hinv := runLoop_cnt_idx_no_band start step 1 rd (by norm_num) m 5
    (runLoop false start step 1 rd 0 5 (initState 2e-10))
    (fun j hj1 _ => hout j hj1)
  have hcnt : (singleRun false start step stop 1 2e-10 rd).flagCnt = 5 := by
    rw [singleRun_flagCnt, hsplit, hinv.1, hfive]
  have hidx : (singleRun false start step stop 1 2e-10 rd).flagIdx = [0, 1, 2, 3, 4] := by
    rw [singleRun_flagIdx, hsplit, hinv.2, hfive]
  have hdec : decide (5 ≤ (singleRun false start step stop 1 2e-10 rd).flagCnt) = true := by
    rw [hcnt]
    rfl
  have hmem : ∀ i : ℕ, i < 5 → i ∈ [0, 1, 2, 3, 4] := by
    intro i hi
    interval_cases i <;> simp
  have hnotmem : ∀ i : ℕ, ¬ i < 5 → i ∉ [0, 1, 2, 3, 4] := by
    intro i hi
    simp
    omega
  refine ⟨by rw [hfive], hcnt, hidx, ?_, ?_, ?_⟩
  · intro i
    rw [singleRun_voltage, hdec, hidx]
    constructor
    · intro hsome
      by_contra hge
      rw [invalidate_get_not_mem _ _ _ _ (hnotmem i hge)] at hsome
      exact map_some_get_ne _ i hsome
    · intro hlt
      apply invalidate_get_mem _ _ _ (hmem i hlt)
      rw [stepChunk_length]
      omega
  · intro i
    rw [singleRun_time, hdec, hidx]
    constructor
    · intro hsome
      by_contra hge
      rw [invalidate_get_not_mem _ _ _ _ (hnotmem i hge)] at hsome
      exact map_some_get_ne _ i hsome
    · intro hlt
      apply invalidate_get_mem _ _ _ (hmem i hlt)
      rw [stepChunk_length]
      omega
  · intro i hlt
    rw [singleRun_current, hdec, hidx, List.getElem?_map]
    rw [invalidate_get_mem _ _ _ (hmem i hlt) (by rw [stepChunk_length]; omega)]
    rfl

/-- Claim C2: in manual mode, with the measurement range at the fragile
value `2e-10`, 5 consecutive in-band (`1.4e-10 ≤ |r| ≤ 1.44e-10`) samples
force the range to the safe value `2e-9` (the state after the fifth step),
and -- when the remaining readings are out of band -- exactly those 5
step indices are flagged and later overwritten with NaN markers in the
current, time and voltage arrays (entries 0-4 are NaN, all others are
not). -/
theorem sticky_fault_guard (start step stop : ℚ) (rd : ℕ → ℕ → ℚ × ℚ)
    (hstep : step ≠ 0) (hn : 5 ≤ numSteps start step stop)
    (hband : ∀ k, k < 5 → inBand |(rd k 0).1|)
    (hout : ∀ k, 5 ≤ k → ¬ inBand |(rd k 0).1|) :
    (runLoop false start step 1 rd 0 5 (initState 2e-10)).mr = 2e-9
    ∧ (singleRun false start step stop 1 2e-10 rd).flagCnt = 5
    ∧ (singleRun false start step stop 1 2e-10 rd).flagIdx = [0, 1, 2, 3, 4]
    ∧ (∀ i : ℕ,
        (singleRun false start step stop 1 2e-10 rd).voltage[i]? = some none ↔ i < 5)
    ∧ (∀ i : ℕ,
        (singleRun false start step stop 1 2e-10 rd).time[i]? = some none ↔ i < 5)
    ∧ (∀ i : ℕ, i < 5 →
        (singleRun false start step stop 1 2e-10 rd).current[i]? = some none) :=
  sticky_run_core start step stop rd hstep hn hband hout

/-- Witness for the C2 theorem: a 10-step sweep whose first five readings are `1.4e-10`. -/
theorem sticky_fault_guard_witness :
    (((-2 : ℚ) ≠ 0 ∧ 5 ≤ numSteps 10 (-2) (-10)) ∧
      (∀ k, k < 5 →
        inBand |((fun (k _ : ℕ) => if k < 5 then ((1.4e-10 : ℚ), (0 : ℚ))
          else ((0 : ℚ), (0 : ℚ))) k 0).1|) ∧
      (∀ k, 5 ≤ k →
        ¬ inBand |((fun (k _ : ℕ) => if k < 5 then ((1.4e-10 : ℚ), (0 : ℚ))
          else ((0 : ℚ), (0 : ℚ))) k 0).1|)) ∧
    ((runLoop false 10 (-2) 1 (fun k _ => if k < 5 then ((1.4e-10 : ℚ), (0 : ℚ))
        else ((0 : ℚ), (0 : ℚ))) 0 5 (initState 2e-10)).mr = 2e-9
    ∧ (singleRun false 10 (-2) (-10) 1 2e-10 fun k _ => if k < 5 then
        ((1.4e-10 : ℚ), (0 : ℚ)) else ((0 : ℚ), (0 : ℚ))).flagCnt = 5
    ∧ (singleRun false 10 (-2) (-10) 1 2e-10 fun k _ => if k < 5 then
        ((1.4e-10 : ℚ), (0 : ℚ)) else ((0 : ℚ), (0 : ℚ))).flagIdx = [0, 1, 2, 3, 4]
    ∧ (∀ i : ℕ,
        (singleRun false 10 (-2) (-10) 1 2e-10 fun k _ => if k < 5 then
          ((1.4e-10 : ℚ), (0 : ℚ)) else ((0 : ℚ), (0 : ℚ))).voltage[i]? = some none ↔ i < 5)
    ∧ (∀ i : ℕ,
        (singleRun false 10 (-2) (-10) 1 2e-10 fun k _ => if k < 5 then
          ((1.4e-10 : ℚ), (0 : ℚ)) else ((0 : ℚ), (0 : ℚ))).time[i]? = some none ↔ i < 5)
    ∧ (∀ i : ℕ, i < 5 →
        (singleRun false 10 (-2) (-10) 1 2e-10 fun k _ => if k < 5 then
          ((1.4e-10 : ℚ), (0 : ℚ)) else ((0 : ℚ), (0 : ℚ))).current[i]? = some none)) := by
  have hns : numSteps 10 (-2) (-10) = 10 := by
    unfold numSteps
    rw [show ((-10 : ℚ) - 10) / (-2) = ((10 : ℤ) : ℚ) by norm_num, Int.ceil_intCast]
    rfl
  have hband : ∀ k, k < 5 →
      inBand |((fun (k _ : ℕ) => if k < 5 then ((1.4e-10 : ℚ), (0 : ℚ))
        else ((0 : ℚ), (0 : ℚ))) k 0).1| := by
    intro k hk
    simp only [if_pos hk]
    constructor
    · rw [show |(1.4e-10 : ℚ)| = 1.4e-10 by norm_num]
      norm_num [bandLo]
    · rw [show |(1.4e-10 : ℚ)| = 1.4e-10 by norm_num]
      norm_num [bandHi]
  have hout : ∀ k, 5 ≤ k →
      ¬ inBand |((fun (k _ : ℕ) => if k < 5 then ((1.4e-10 : ℚ), (0 : ℚ))
        else ((0 : ℚ), (0 : ℚ))) k 0).1| := by
    intro k hk hb
    have hb2 : inBand |((if k < 5 then ((1.4e-10 : ℚ), (0 : ℚ))
        else ((0 : ℚ), (0 : ℚ))).1 : ℚ)| := hb
    rw [if_neg (by omega)] at hb2
    have := hb2.1
    norm_num [bandLo] at this
  exact ⟨⟨⟨by norm_num, by rw [hns]; norm_num⟩, hband, hout⟩,
    sticky_fault_guard 10 (-2) (-10) _ (by norm_num) (by rw [hns]; norm_num) hband hout⟩

/- ------------------------------------------------------------------ -/
/- Claim C4: direction reversal between successive sweeps              -/
/- ------------------------------------------------------------------ -/

theorem numSteps_neg (start step stop : ℚ) :
    numSteps (-start) (-step) (-stop) = numSteps start step stop := by
  unfold numSteps
  rw [show -stop - -start = -(stop - start) by ring, neg_div_neg_eq]

theorem stepChunk_map {α β : Type} (npts : ℕ) (g : ℕ → ℕ → α) (h : α → β) (k f : ℕ) :
    (stepChunk npts g k f).map h = stepChunk npts (fun j q => h (g j q)) k f := by
  unfold stepChunk
  rw [List.map_flatMap]
  congr 1
  funext j
  rw [List.map_map]
  rfl

theorem run_neg_voltage (auto : Bool) (s p e mr1 mr2 : ℚ) (npts : ℕ)
    (rda rdb : ℕ → ℕ → ℚ × ℚ)
    (h1 : (singleRun auto s p e npts mr1 rda).flagCnt < 5)
    (h2 : (singleRun auto (-s) (-p) (-e) npts mr2 rdb).flagCnt < 5) :
    (singleRun auto (-s) (-p) (-e) npts mr2 rdb).voltage
      = (singleRun auto s p e npts mr1 rda).voltage.map (Option.map fun x => -x) := by
  rw [singleRun_voltage_quiet auto s p e npts mr1 rda h1,
    singleRun_voltage_quiet auto (-s) (-p) (-e) npts mr2 rdb h2, numSteps_neg]
  rw [List.map_map]
  have hcomp : (Option.map fun x : ℚ => -x) ∘ some = some ∘ (fun x : ℚ => -x) := by
    funext x
    rfl
  rw [hcomp, ← List.map_map]
  congr 1
  rw [stepChunk_map]
  congr 1
  funext j q
  ring

theorem doSweep_succ (auto : Bool) (npts : ℕ) (rd : ℕ → ℕ → ℕ → ℚ × ℚ) (m : ℕ)
    (start step stop mr0 : ℚ) :
    doSweep auto npts rd (m + 1) start step stop mr0
      = singleRun auto start step stop npts mr0 (rd 0)
        :: doSweep auto npts (fun s => rd (s + 1)) m (-start) (-step) (-stop)
            (singleRun auto start step stop npts mr0 (rd 0)).range := rfl

/-- Claim C4 (amended): between successive sweeps `_do_sweep` negates
start, step and stop (line 414), so any two consecutive SweepRecords of a
session have negated sweep parameters; and whenever neither of the two
sweeps invalidated any sample (no sticky-fault trigger, counter below 5),
the voltage sequence of sweep `i+1` is the element-wise negation of the
voltage sequence of sweep `i`.  (With invalidation, NaN-masked entries can
break the exact element-wise negation: see the counterexample.) -/
theorem direction_reversal_amended (auto : Bool) (npts : ℕ) :
    ∀ (n : ℕ) (rd : ℕ → ℕ → ℕ → ℚ × ℚ) (start step stop mr0 : ℚ) (i : ℕ)
      (r1 r2 : RunResult),
      (doSweep auto npts rd n start step stop mr0)[i]? = some r1 →
      (doSweep auto npts rd n start step stop mr0)[i + 1]? = some r2 →
      (r2.start = -r1.start ∧ r2.step = -r1.step ∧ r2.stop = -r1.stop) ∧
      (r1.flagCnt < 5 → r2.flagCnt < 5 →
        r2.voltage = r1.voltage.map (Option.map fun x => -x)) := by
  intro n
  induction n with
  | zero =>
      intro rd start step stop mr0 i r1 r2 h1 _
      simp [doSweep] at h1
  | succ m ih =>
      intro rd start step stop mr0 i r1 r2 h1 h2
      rw [doSweep_succ] at h1 h2
      match i with
      | 0 =>
          have hr1 : r1 = singleRun auto start step stop npts mr0 (rd 0) := by
            simp at h1
            exact h1.symm
          match m, h2 with
          | m' + 1, h2 =>
            rw [doSweep_succ] at h2
            have hr2 : r2 = singleRun auto (-start) (-step) (-stop) npts
                (singleRun auto start step stop npts mr0 (rd 0)).range
                ((fun s => rd (s + 1)) 0) := by
              simp at h2
              exact h2.symm
            subst hr1
            subst hr2
            refine ⟨⟨?_, ?_, ?_⟩, ?_⟩
            · rw [singleRun_start, singleRun_start]
            · rw [singleRun_step, singleRun_step]
            · rw [singleRun_stop, singleRun_stop]
            · intro hc1 hc2
              exact run_neg_voltage auto start step stop mr0 _ npts (rd 0) _ hc1 hc2
      | j + 1 =>
          have h1b : (doSweep auto npts (fun s => rd (s + 1)) m (-start) (-step) (-stop)
              (singleRun auto start step stop npts mr0 (rd 0)).range)[j]? = some r1 := by
            simpa using h1
          have h2b : (doSweep auto npts (fun s => rd (s + 1)) m (-start) (-step) (-stop)
              (singleRun auto start step stop npts mr0 (rd 0)).range)[j + 1]? = some r2 := by
            simpa using h2
          exact ih _ _ _ _ _ j r1 r2 h1b h2b

/-- Claim C4, counterexample: a 2-sweep session (`max_v = 10`,
`step_v = 2`, `npts = 1`, initial range at the fragile `2e-10`) whose
first sweep reads `1.4e-10` for five consecutive samples and whose second
sweep reads 0 everywhere.  The sticky-fault guard invalidates entries 0-4
of the first record (NaN), while the second record has no NaN, so the
second voltage sequence is not the element-wise negation of the first. -/
theorem direction_reversal_cex :
    ((doSweep false 1 (fun s k _ => if s = 0 ∧ k < 5 then ((1.4e-10 : ℚ), (0 : ℚ))
        else ((0 : ℚ), (0 : ℚ))) 2 10 (-2) (-10) 2e-10)[1]?).map RunResult.voltage
      ≠ ((doSweep false 1 (fun s k _ => if s = 0 ∧ k < 5 then ((1.4e-10 : ℚ), (0 : ℚ))
        else ((0 : ℚ), (0 : ℚ))) 2 10 (-2) (-10) 2e-10)[0]?).map
          (fun r => r.voltage.map (Option.map fun x : ℚ => -x)) := by
  intro heq
  set rdW : ℕ → ℕ → ℕ → ℚ × ℚ :=
    fun s k _ => if s = 0 ∧ k < 5 then ((1.4e-10 : ℚ), (0 : ℚ)) else ((0 : ℚ), (0 : ℚ))
    with hrdW
  have hGet0 : (doSweep false 1 rdW 2 10 (-2) (-10) 2e-10)[0]?
      = some (singleRun false 10 (-2) (-10) 1 2e-10 (rdW 0)) := by
    rw [doSweep_succ]
    rfl
  have hGet1 : (doSweep false 1 rdW 2 10 (-2) (-10) 2e-10)[1]?
      = some (singleRun false (-10) (-(-2 : ℚ)) (-(-10 : ℚ)) 1
          (singleRun false 10 (-2) (-10) 1 2e-10 (rdW 0)).range
          ((fun s => rdW (s + 1)) 0)) := by
    rw [doSweep_succ, doSweep_succ]
    rfl
  rw [show (-(-2 : ℚ)) = 2 by norm_num, show (-(-10 : ℚ)) = 10 by norm_num] at hGet1
  rw [hGet0, hGet1, option_map_some, option_map_some] at heq
  have hv := Option.some.inj heq
  -- first sweep: sticky-fault guard fires, entry 0 of voltage is NaN
  have hns1 : numSteps 10 (-2) (-10) = 10 := by
    unfold numSteps
    rw [show ((-10 : ℚ) - 10) / (-2) = ((10 : ℤ) : ℚ) by norm_num, Int.ceil_intCast]
    rfl
  have hband0 : ∀ k, k < 5 → inBand |(rdW 0 k 0).1| := by
    intro k hk
    have hb : inBand |((if (0 : ℕ) = 0 ∧ k < 5 then ((1.4e-10 : ℚ), (0 : ℚ))
        else ((0 : ℚ), (0 : ℚ))).1 : ℚ)| → inBand |(rdW 0 k 0).1| := fun h => h
    apply hb
    rw [if_pos ⟨rfl, hk⟩]
    constructor
    · rw [show |(1.4e-10 : ℚ)| = 1.4e-10 by norm_num]
      norm_num [bandLo]
    · rw [show |(1.4e-10 : ℚ)| = 1.4e-10 by norm_num]
      norm_num [bandHi]
  have hout0 : ∀ k, 5 ≤ k → ¬ inBand |(rdW 0 k 0).1| := by
    intro k hk hband
    have hb2 : inBand |((if (0 : ℕ) = 0 ∧ k < 5 then ((1.4e-10 : ℚ), (0 : ℚ))
        else ((0 : ℚ), (0 : ℚ))).1 : ℚ)| := hband
    rw [if_neg (fun hcon => by omega)] at hb2
    have := hb2.1
    norm_num [bandLo] at this
  obtain ⟨-, -, -, hiffV, -, -⟩ := sticky_run_core 10 (-2) (-10) (rdW 0)
    (by norm_num) (by rw [hns1]; norm_num) hband0 hout0
  have hV1 : (singleRun false 10 (-2) (-10) 1 2e-10 (rdW 0)).voltage[0]? = some none :=
    (hiffV 0).mpr (by norm_num)
  -- second sweep: quiet, entry 0 of voltage is the actual value -10
  have hns2 : numSteps (-10) 2 10 = 10 := by
    unfold numSteps
    rw [show ((10 : ℚ) - (-10)) / 2 = ((10 : ℤ) : ℚ) by norm_num, Int.ceil_intCast]
    rfl
  have hnb2 : ∀ j, j < numSteps (-10) 2 10 →
      ¬ inBand |(((fun s => rdW (s + 1)) 0) j 0).1| := by
    intro j _ hband
    have hb2 : inBand |((if (0 + 1 : ℕ) = 0 ∧ j < 5 then ((1.4e-10 : ℚ), (0 : ℚ))
        else ((0 : ℚ), (0 : ℚ))).1 : ℚ)| := hband
    rw [if_neg (fun hcon => by omega)] at hb2
    have := hb2.1
    norm_num [bandLo] at this
  obtain ⟨hc2, -⟩ := singleRun_no_band (-10) 2 10 1
    (singleRun false 10 (-2) (-10) 1 2e-10 (rdW 0)).range
    ((fun s => rdW (s + 1)) 0) (by norm_num) hnb2
  have hquiet := singleRun_voltage_quiet false (-10) 2 10 1
    (singleRun false 10 (-2) (-10) 1 2e-10 (rdW 0)).range
    ((fun s => rdW (s + 1)) 0) (by rw [hc2]; norm_num)
  have hV2 : (singleRun false (-10) 2 10 1
      (singleRun false 10 (-2) (-10) 1 2e-10 (rdW 0)).range
      ((fun s => rdW (s + 1)) 0)).voltage[0]? = some (some ((-10 : ℚ))) := by
    rw [hquiet, List.getElem?_map,
      stepChunk_getElem 1 _ 0 (numSteps (-10) 2 10) 0 (by norm_num)
        (by rw [hns2]; norm_num)]
    norm_num
  rw [hv, List.getElem?_map, hV1] at hV2
  simp at hV2

/-- Witness for the amended C4 theorem: a quiet 2-sweep session. -/
theorem direction_reversal_amended_witness :
    ((doSweep false 1 (fun _ _ _ => ((0 : ℚ), (0 : ℚ))) 2 1 (-1) (-1) 1)[0]?
        = some (singleRun false 1 (-1) (-1) 1 1
            ((fun (_ _ _ : ℕ) => ((0 : ℚ), (0 : ℚ))) 0)) ∧
      (doSweep false 1 (fun _ _ _ => ((0 : ℚ), (0 : ℚ))) 2 1 (-1) (-1) 1)[0 + 1]?
        = some (singleRun false (-1) (-(-1 : ℚ)) (-(-1 : ℚ)) 1
            (singleRun false 1 (-1) (-1) 1 1
              ((fun (_ _ _ : ℕ) => ((0 : ℚ), (0 : ℚ))) 0)).range
            ((fun s => (fun (_ _ _ : ℕ) => ((0 : ℚ), (0 : ℚ))) (s + 1)) 0))) ∧
    (((singleRun false (-1) (-(-1 : ℚ)) (-(-1 : ℚ)) 1
            (singleRun false 1 (-1) (-1) 1 1
              ((fun (_ _ _ : ℕ) => ((0 : ℚ), (0 : ℚ))) 0)).range
            ((fun s => (fun (_ _ _ : ℕ) => ((0 : ℚ), (0 : ℚ))) (s + 1)) 0)).start
          = -(singleRun false 1 (-1) (-1) 1 1
              ((fun (_ _ _ : ℕ) => ((0 : ℚ), (0 : ℚ))) 0)).start
      ∧ (singleRun false (-1) (-(-1 : ℚ)) (-(-1 : ℚ)) 1
            (singleRun false 1 (-1) (-1) 1 1
              ((fun (_ _ _ : ℕ) => ((0 : ℚ), (0 : ℚ))) 0)).range
            ((fun s => (fun (_ _ _ : ℕ) => ((0 : ℚ), (0 : ℚ))) (s + 1)) 0)).step
          = -(singleRun false 1 (-1) (-1) 1 1
              ((fun (_ _ _ : ℕ) => ((0 : ℚ), (0 : ℚ))) 0)).step
      ∧ (singleRun false (-1) (-(-1 : ℚ)) (-(-1 : ℚ)) 1
            (singleRun false 1 (-1) (-1) 1 1
              ((fun (_ _ _ : ℕ) => ((0 : ℚ), (0 : ℚ))) 0)).range
            ((fun s => (fun (_ _ _ : ℕ) => ((0 : ℚ), (0 : ℚ))) (s + 1)) 0)).stop
          = -(singleRun false 1 (-1) (-1) 1 1
              ((fun (_ _ _ : ℕ) => ((0 : ℚ), (0 : ℚ))) 0)).stop)
    ∧ ((singleRun false 1 (-1) (-1) 1 1
          ((fun (_ _ _ : ℕ) => ((0 : ℚ), (0 : ℚ))) 0)).flagCnt < 5 →
        (singleRun false (-1) (-(-1 : ℚ)) (-(-1 : ℚ)) 1
            (singleRun false 1 (-1) (-1) 1 1
              ((fun (_ _ _ : ℕ) => ((0 : ℚ), (0 : ℚ))) 0)).range
            ((fun s => (fun (_ _ _ : ℕ) => ((0 : ℚ), (0 : ℚ))) (s + 1)) 0)).flagCnt < 5 →
        (singleRun false (-1) (-(-1 : ℚ)) (-(-1 : ℚ)) 1
            (singleRun false 1 (-1) (-1) 1 1
              ((fun (_ _ _ : ℕ) => ((0 : ℚ), (0 : ℚ))) 0)).range
            ((fun s => (fun (_ _ _ : ℕ) => ((0 : ℚ), (0 : ℚ))) (s + 1)) 0)).voltage
          = (singleRun false 1 (-1) (-1) 1 1
              ((fun (_ _ _ : ℕ) => ((0 : ℚ), (0 : ℚ))) 0)).voltage.map
                (Option.map fun x => -x))) :=
  ⟨⟨rfl, rfl⟩,
    direction_reversal_amended false 1 2 (fun _ _ _ => ((0 : ℚ), (0 : ℚ))) 1 (-1) (-1) 1 0
      (singleRun false 1 (-1) (-1) 1 1 ((fun (_ _ _ : ℕ) => ((0 : ℚ), (0 : ℚ))) 0))
      (singleRun false (-1) (-(-1 : ℚ)) (-(-1 : ℚ)) 1
        (singleRun false 1 (-1) (-1) 1 1
          ((fun (_ _ _ : ℕ) => ((0 : ℚ), (0 : ℚ))) 0)).range
        ((fun s => (fun (_ _ _ : ℕ) => ((0 : ℚ), (0 : ℚ))) (s + 1)) 0)) rfl rfl⟩
